import Mathlib

/-!
# Verification of the Prapti request/response pipeline

A shallow embedding of the Prapti HTTP-validation pipeline:
header normalization (`headersToObject`), the header-validation merge
policy, body classification/serialization and its form-data round trip
(`formDataToObject` / `objectToFormData`), the request orchestration of
`Prapti.fetch`, and the `ValidatedResponse` decorator with its header
cache and consumed-body behaviour.

JavaScript runtime values are modelled by `JSVal`; `Headers` objects and
plain lower-cased header records are modelled by `HMap`, an ordered
association list with in-place overwrite (matching both JS object
assignment and `Headers.set`).  The native transport (`fetch` plus WHATWG
`Headers`/`Response` construction) is modelled by `headersOfInit`,
`nativeTransportRequest` and `NativeResponse`.
-/

/-- ASCII lower-casing of a character: the model of the case folding that
`String.prototype.toLowerCase` performs on header names (header names are
ASCII). -/
def lowerChar (c : Char) : Char :=
  if c.toNat ≥ 65 ∧ c.toNat ≤ 90 then Char.ofNat (c.toNat + 32) else c

/-- Model of JavaScript `s.toLowerCase()` on (ASCII) header names. -/
def lowerStr (s : String) : String :=
  ⟨s.data.map lowerChar⟩

/-- A string that is already in normalized (lower-case) form. -/
def IsLowerStr (s : String) : Prop := lowerStr s = s

instance (s : String) : Decidable (IsLowerStr s) :=
  inferInstanceAs (Decidable (lowerStr s = s))

/-! ## JavaScript runtime values -/

/-- A model of the JavaScript values flowing through the pipeline:
strings, numbers (integral, which covers every value the spec and tests
exercise), booleans, `null`, `undefined`, arrays, plain objects (ordered
own-property lists) and opaque `Blob`s (identified by a tag). -/
inductive JSVal where
  | str : String → JSVal
  | num : Int → JSVal
  | bool : Bool → JSVal
  | null : JSVal
  | undef : JSVal
  | arr : List JSVal → JSVal
  | obj : List (String × JSVal) → JSVal
  | blob : Nat → JSVal
deriving Repr, BEq

mutual

/-- Model of the JavaScript `String(value)` coercion for the values of
`JSVal` (`String` on an object yields `"[object Object]"`, on an array the
comma-joined element coercions, etc.). -/
def jsToString : JSVal → String
  | .str s => s
  | .num n => toString n
  | .bool b => cond b "true" "false"
  | .null => "null"
  | .undef => "undefined"
  | .arr l => String.intercalate "," (jsToStringList l)
  | .obj _ => "[object Object]"
  | .blob _ => "[object Blob]"

/-- `String(·)` mapped over a list of values (the recursion partner of
`jsToString` for array elements). -/
def jsToStringList : List JSVal → List String
  | [] => []
  | v :: vs => jsToString v :: jsToStringList vs

end

/-- JavaScript truthiness combined with `typeof x === "object"`: the guard
`x && typeof x === "object"` used before merging validated headers.
Arrays and `Blob`s are objects; `null` is an object but falsy. -/
def JSVal.isTruthyObject : JSVal → Bool
  | .obj _ => true
  | .arr _ => true
  | .blob _ => true
  | _ => false

/-- Model of `Object.entries(x)` for the values on which the pipeline
calls it after the truthy-object guard: the own enumerable string-keyed
entries in insertion order (indices for arrays, nothing for a `Blob`). -/
def JSVal.entries : JSVal → List (String × JSVal)
  | .obj l => l
  | .arr l => (l.enum.map fun p => (toString p.1, p.2))
  | _ => []

/-- `v === undefined || v === null`, the nullish test the pipeline uses to
drop or delete headers. -/
def JSVal.isNullish : JSVal → Bool
  | .null => true
  | .undef => true
  | _ => false

/-- `typeof v === "string"`. -/
def JSVal.isString : JSVal → Bool
  | .str _ => true
  | _ => false

/-- `v === undefined` (the sentinel test guarding the validated-header
cache of `ValidatedResponse`). -/
def JSVal.isUndef : JSVal → Bool
  | .undef => true
  | _ => false

/-! ## Header maps

`HMap` models both a WHATWG `Headers` object and the plain lower-cased
header record produced by `headersToObject`: an ordered association list
whose update operation overwrites in place, exactly like JS object
assignment (`obj[k] = v`) and `Headers.set`. -/

abbrev HMap : Type := List (String × String)

/-- In-place overwrite on an association list: replace the first entry
with key `kl`, or append a fresh entry at the end. -/
def hmapSetGo : List (String × String) → String → String → List (String × String)
  | [], kl, v => [(kl, v)]
  | e :: rest, kl, v => if e.1 = kl then (kl, v) :: rest else e :: hmapSetGo rest kl v

/-- `Headers.set(k, v)` / `obj[k.toLowerCase()] = v`: the key is
normalized to lower case before the overwrite. -/
def HMap.set (m : HMap) (k v : String) : HMap := hmapSetGo m (lowerStr k) v

/-- First-match lookup on an association list. -/
def hmapGetGo : List (String × String) → String → Option String
  | [], _ => none
  | e :: rest, kl => if e.1 = kl then some e.2 else hmapGetGo rest kl

/-- `Headers.get(k)` (case-insensitive lookup). -/
def HMap.get (m : HMap) (k : String) : Option String := hmapGetGo m (lowerStr k)

/-- `Headers.has(k)`. -/
def HMap.has (m : HMap) (k : String) : Bool := (m.get k).isSome

/-- Remove every entry with key `kl`. -/
def hmapDeleteGo : List (String × String) → String → List (String × String)
  | [], _ => []
  | e :: rest, kl =>
    if e.1 = kl then hmapDeleteGo rest kl else e :: hmapDeleteGo rest kl

/-- `Headers.delete(k)`. -/
def HMap.delete (m : HMap) (k : String) : HMap := hmapDeleteGo m (lowerStr k)

/-- Fold `Headers.set` over a list of string entries (the shape of every
`Object.entries(...).forEach(([k, v]) => headers.set(k, v))` loop in the
pipeline). -/
def HMap.setAll (m : HMap) (l : List (String × String)) : HMap :=
  l.foldl (fun acc e => acc.set e.1 e.2) m

/-- WHATWG `Headers.append(k, v)`: combine with an existing value using
`", "`, otherwise add a fresh lower-cased entry.  This is how the native
transport fills a `Headers` object from an init argument. -/
def HMap.append (m : HMap) (k v : String) : HMap :=
  match m.get k with
  | some old => m.set k (old ++ ", " ++ v)
  | none => m ++ [(lowerStr k, v)]

/-- The value of the last entry of `l` whose lower-cased key is `kl`
(a specification-side description of what a `set` loop leaves behind). -/
def lookupLastBy : List (String × String) → String → Option String
  | [], _ => none
  | e :: l, kl =>
    match lookupLastBy l kl with
    | some v => some v
    | none => if lowerStr e.1 = kl then some e.2 else none

/-- The last validated-header entry of `l` for lower-cased name `kl`
(a specification-side description of the schema-merge loop, which applies
`set`/`delete` in emission order). -/
def lastHeaderAction : List (String × JSVal) → String → Option JSVal
  | [], _ => none
  | e :: l, kl =>
    match lastHeaderAction l kl with
    | some v => some v
    | none => if lowerStr e.1 = kl then some e.2 else none

/-- The merge loop over validated headers: a nullish value deletes the
header, any other value is written through `String(·)`. -/
def applyValidatedHeaders (m : HMap) (l : List (String × JSVal)) : HMap :=
  l.foldl
    (fun acc e =>
      if e.2.isNullish then acc.delete e.1 else acc.set e.1 (jsToString e.2))
    m

/-! ## Header init shapes and normalization -/

/-- The three accepted header representations: a plain (case-insensitive)
record object, an ordered sequence of key/value pairs, and a native
`Headers` collection (modelled by its entry list, `HMap`). -/
inductive HeadersInit where
  | record : List (String × JSVal) → HeadersInit
  | pairs : List (String × JSVal) → HeadersInit
  | native : HMap → HeadersInit
deriving Repr

/-- `Prapti.headersToObject`: convert any accepted header shape to a plain
lower-cased record.  A `Headers` collection is copied entry by entry; for
record and pair shapes a `null`/`undefined` value is skipped and other
values are coerced with `String(·)`; keys are lower-cased throughout and a
later entry overwrites an earlier one with the same key. -/
def headersToObject : Option HeadersInit → HMap
  | none => []
  | some (.native m) =>
    m.foldl (fun obj e => hmapSetGo obj (lowerStr e.1) e.2) []
  | some (.pairs l) =>
    l.foldl
      (fun obj e =>
        if e.2.isNullish then obj
        else hmapSetGo obj (lowerStr e.1) (jsToString e.2)) []
  | some (.record l) =>
    l.foldl
      (fun obj e =>
        if e.2.isNullish then obj
        else hmapSetGo obj (lowerStr e.1) (jsToString e.2)) []

/-- The native transport's own header handling, `new Headers(init)`:
every entry is appended (WHATWG *fill*), so a repeated name combines its
values with `", "` instead of overwriting. -/
def headersOfInit : Option HeadersInit → HMap
  | none => []
  | some (.native m) => m.foldl (fun acc e => acc.append e.1 e.2) []
  | some (.pairs l) => l.foldl (fun acc e => acc.append e.1 (jsToString e.2)) []
  | some (.record l) => l.foldl (fun acc e => acc.append e.1 (jsToString e.2)) []

/-! ## Serializer and client configuration -/

/-- The stringification policy for rebuilding form-data values
(`"native"` coerces everything with `String(·)`, `"strict"` throws on
non-scalar values). -/
inductive FormDataValueMode where
  | native
  | strict
deriving Repr, DecidableEq

/-- The pluggable serialization adapter: `stringify`, a fallible `parse`
(a JS throw is modelled by `Except.error` carrying the message), an
optional content-type predicate and an optional form-data value mode. -/
structure SerializationAdapter where
  stringify : JSVal → String
  parse : String → Except String JSVal
  isJsonContentType : Option (Option String → Bool) := none
  formDataValueMode : Option FormDataValueMode := none

/-- The characters before the first `;` — `split(";")[0]`. -/
def takeUntilSemi : List Char → List Char
  | [] => []
  | c :: rest => if c = ';' then [] else c :: takeUntilSemi rest

/-- The media type before the `;`-delimited parameter suffix. -/
def headBeforeSemi (s : String) : String := ⟨takeUntilSemi s.data⟩

/-- JS whitespace as it occurs around media types. -/
def wsChar (c : Char) : Bool :=
  c = ' ' || c = '\t' || c = '\n' || c = '\r'

/-- JS `String.prototype.trim` (over the whitespace of media types). -/
def jsTrim (s : String) : String :=
  ⟨((s.data.dropWhile wsChar).reverse.dropWhile wsChar).reverse⟩

/-- JS `String.prototype.startsWith`. -/
def strStartsWith (s p : String) : Bool := p.data.isPrefixOf s.data

/-- JS `String.prototype.endsWith`. -/
def strEndsWith (s p : String) : Bool := p.data.reverse.isPrefixOf s.data.reverse

/-- The default serializer's content-type predicate: lower-case, drop the
`;`-delimited parameter suffix, trim, then accept `application/json` and
`application/*+json`. -/
def defaultIsJsonContentType : Option String → Bool
  | none => false
  | some contentType =>
    let normalized := lowerStr contentType
    let mediaType := headBeforeSemi normalized
    let trimmedMediaType := jsTrim mediaType
    trimmedMediaType == "application/json" ||
      (strStartsWith trimmedMediaType "application/" &&
        strEndsWith trimmedMediaType "+json")

/-- Header validation mode, `preserve` being the constructor default. -/
inductive HeaderValidationMode where
  | preserve
  | strict
deriving Repr, DecidableEq

/-- A constructed `Prapti` instance: the validation adapter's `parse`
capability (schemas are opaque handles, modelled by `Nat`), the resolved
serializer and the resolved header validation mode. -/
structure PraptiClient where
  parse : Nat → JSVal → Except String JSVal
  serializer : SerializationAdapter
  headerValidationMode : HeaderValidationMode := .preserve

/-- `Prapti.isJsonContentType`: the instance serializer's predicate when
it provides one, otherwise the default serializer's predicate. -/
def PraptiClient.isJsonCT (cl : PraptiClient) (contentType : Option String) : Bool :=
  match cl.serializer.isJsonContentType with
  | some f => f contentType
  | none => defaultIsJsonContentType contentType

/-! ## Body helpers -/

/-- Exact-key lookup in a plain JS record (no case folding). -/
def recGetGo : List (String × JSVal) → String → Option JSVal
  | [], _ => none
  | e :: rest, k => if e.1 = k then some e.2 else recGetGo rest k

/-- Exact-key in-place assignment in a plain JS record. -/
def recSetGo : List (String × JSVal) → String → JSVal → List (String × JSVal)
  | [], k, v => [(k, v)]
  | e :: rest, k, v => if e.1 = k then (k, v) :: rest else e :: recSetGo rest k v

/-- One step of the multi-value flattening loop shared verbatim by
`formDataToObject` and `urlSearchParamsToObject`: a first occurrence is
stored as a scalar, a second turns the slot into a two-element array, and
later ones are pushed onto the array. -/
def fdStep (result : List (String × JSVal)) (k : String) (v : JSVal) :
    List (String × JSVal) :=
  match recGetGo result k with
  | some old =>
    if old.isUndef then recSetGo result k v
    else
      match old with
      | .arr xs => recSetGo result k (.arr (xs ++ [v]))
      | _ => recSetGo result k (.arr [old, v])
  | none => recSetGo result k v

/-- `formDataToObject`: flatten a form-data entry list to a plain record
using the multi-value rule. -/
def formDataToObject (formData : List (String × JSVal)) : List (String × JSVal) :=
  formData.foldl (fun result e => fdStep result e.1 e.2) []

/-- `urlSearchParamsToObject`: the same flattening for query params
(whose values are always strings). -/
def urlSearchParamsToObject (params : List (String × String)) : List (String × JSVal) :=
  params.foldl (fun result e => fdStep result e.1 (.str e.2)) []

/-- `Object.entries(x)` as the body rebuilders invoke it (no truthiness
guard): entries of objects and arrays, index/character entries of strings,
nothing for other primitives, and a `TypeError` for `null`/`undefined`. -/
def jsObjectEntries : JSVal → Except String (List (String × JSVal))
  | .obj l => .ok l
  | .arr l => .ok (l.enum.map fun p => (toString p.1, p.2))
  | .str s => .ok (s.data.enum.map fun p => (toString p.1, .str (String.singleton p.2)))
  | .num _ => .ok []
  | .bool _ => .ok []
  | .blob _ => .ok []
  | .null => .error "TypeError: Cannot convert undefined or null to object"
  | .undef => .error "TypeError: Cannot convert undefined or null to object"

/-- `value is string | number | boolean` (the scalars strict mode allows
in rebuilt form-data). -/
def isAllowedFormDataScalar : JSVal → Bool
  | .str _ => true
  | .num _ => true
  | .bool _ => true
  | _ => false

/-- `appendFormDataValue`: `Blob`s are appended as-is; in `native` mode
everything else is appended through `String(·)`; in `strict` mode only
scalars are allowed and nullish or complex values throw. -/
def appendFormDataValue (formData : List (String × JSVal)) (key : String)
    (value : JSVal) (mode : FormDataValueMode) :
    Except String (List (String × JSVal)) :=
  match value with
  | .blob b => .ok (formData ++ [(key, .blob b)])
  | v =>
    if mode = .native then .ok (formData ++ [(key, .str (jsToString v))])
    else if isAllowedFormDataScalar v then
      .ok (formData ++ [(key, .str (jsToString v))])
    else if v.isNullish then
      .error ("FormData value for \"" ++ key ++ "\" is " ++ jsToString v ++
        ". Consider serializing (e.g. superjson) before validation.")
    else
      .error ("FormData value for \"" ++ key ++
        "\" is a complex object. Consider serializing (e.g. superjson) before validation.")

/-- `objectToFormData`: rebuild a form-data entry list from a validated
record; an array value is appended element by element, restoring repeated
entries. -/
def objectToFormData (obj : JSVal) (mode : FormDataValueMode) :
    Except String (List (String × JSVal)) := do
  let entries ← jsObjectEntries obj
  entries.foldlM
    (fun formData e =>
      match e.2 with
      | .arr items =>
        items.foldlM (fun fd item => appendFormDataValue fd e.1 item mode) formData
      | v => appendFormDataValue formData e.1 v mode)
    []

/-- `objectToUrlSearchParams`: the analogous rebuild for query params;
every value goes through `String(·)`. -/
def objectToUrlSearchParams (obj : JSVal) :
    Except String (List (String × String)) := do
  let entries ← jsObjectEntries obj
  .ok (entries.foldl
    (fun params e =>
      match e.2 with
      | .arr items => params ++ items.map (fun item => (e.1, jsToString item))
      | v => params ++ [(e.1, jsToString v)])
    [])

/-! ## The request orchestration of `Prapti.fetch` -/

/-- The request body shapes `Prapti.fetch` dispatches on: raw string,
form-data, url-search-params, the binary family (never flattened), and a
plain structured object/array. -/
inductive JSBody where
  | str : String → JSBody
  | formData : List (String × JSVal) → JSBody
  | urlParams : List (String × String) → JSBody
  | blob : Nat → JSBody
  | arrayBuffer : Nat → JSBody
  | typedView : Nat → JSBody
  | stream : Nat → JSBody
  | plain : JSVal → JSBody
deriving Repr

/-- A body shape the native transport accepts as `BodyInit` unchanged
(everything except a plain structured object/array). -/
def JSBody.isNativeShape : JSBody → Bool
  | .plain _ => false
  | _ => true

/-- The validation pre-image of a body for schema validation: strings are
handled separately; form-data and params are flattened; binary bodies and
plain objects are passed to the adapter as the JS values they are. -/
def JSBody.asJSVal : JSBody → JSVal
  | .str s => .str s
  | .formData fd => .obj (formDataToObject fd)
  | .urlParams ps => .obj (urlSearchParamsToObject ps)
  | .blob n => .blob n
  | .arrayBuffer n => .blob n
  | .typedView n => .blob n
  | .stream n => .blob n
  | .plain v => v

/-- The two optional request-side schema slots (opaque schema handles). -/
structure ValidateSlots where
  body : Option Nat := none
  headers : Option Nat := none
deriving Repr

/-- The `validate` option block: `{request?: {body?, headers?},
response?: {body?, headers?}}`. -/
structure ValidateBlock where
  request : Option ValidateSlots := none
  response : Option ValidateSlots := none
deriving Repr

/-- The per-call options of `Prapti.fetch`: the validate block, body and
headers (destructured away), and every remaining transport option carried
through verbatim. -/
structure PraptiOptions where
  validate : Option ValidateBlock := none
  body : Option JSBody := none
  headers : Option HeadersInit := none
  fetchOptions : List (String × JSVal) := []

/-- The argument tuple the underlying `fetch` transport receives: target
URL, the passthrough options, the final `Headers` object and the final
body. -/
structure TransportRequest where
  url : String
  fetchOptions : List (String × JSVal)
  headers : HMap
  body : Option JSBody
deriving Repr

/-- Turn a lower-cased header record back into the JS object handed to
the validation adapter. -/
def hmapToJS (m : HMap) : JSVal :=
  .obj (m.map fun e => (e.1, .str e.2))

/-- The header phase of `Prapti.fetch`: with a request header schema, in
`preserve` mode the raw headers are copied into the outgoing `Headers`
first; the adapter then validates the raw record, and if it returns a
truthy object each emitted entry either deletes the header (nullish
value) or overwrites it (`String(·)` coercion).  Without a schema the raw
headers are copied as-is. -/
def praptiHeaderPhase (cl : PraptiClient) (requestHeadersSchema : Option Nat)
    (rawHeaders : HMap) : Except String HMap :=
  match requestHeadersSchema with
  | some sch => do
    let base : HMap :=
      if cl.headerValidationMode = .preserve then HMap.setAll [] rawHeaders
      else []
    let validatedHeaders ← cl.parse sch (hmapToJS rawHeaders)
    if validatedHeaders.isTruthyObject then
      pure (applyValidatedHeaders base validatedHeaders.entries)
    else
      pure base
  | none => pure (HMap.setAll [] rawHeaders)

/-- The string-body decode step: with a JSON content-type a parse failure
becomes the wrapped `Invalid JSON request body` error; with no
content-type a parse failure falls back to the opaque string; with any
other content-type the string is used as-is. -/
def praptiDecodeStringBody (cl : PraptiClient) (contentType : Option String)
    (s : String) : Except String JSVal :=
  if cl.isJsonCT contentType then
    match cl.serializer.parse s with
    | .ok v => .ok v
    | .error msg => .error ("Invalid JSON request body: " ++ msg)
  else if contentType = none then
    match cl.serializer.parse s with
    | .ok v => .ok v
    | .error _ => .ok (.str s)
  else
    .ok (.str s)

/-- `Prapti.fetch` up to (and excluding) the transport call: header
validation, body validation/serialization and assembly of the final
request.  An `Except.error` models the returned promise rejecting before
any network activity. -/
def praptiBuildRequest (cl : PraptiClient) (input : String)
    (options : Option PraptiOptions) : Except String TransportRequest := do
  let opts := options.getD {}
  let requestBodySchema := (opts.validate.bind (·.request)).bind (·.body)
  let requestHeadersSchema := (opts.validate.bind (·.request)).bind (·.headers)
  let rawHeaders := headersToObject opts.headers
  let finalHeaders ← praptiHeaderPhase cl requestHeadersSchema rawHeaders
  match opts.body with
  | none =>
    pure { url := input, fetchOptions := opts.fetchOptions,
           headers := finalHeaders, body := none }
  | some body =>
    match requestBodySchema with
    | some sch => do
      let contentType := finalHeaders.get "content-type"
      let parsedBody ←
        match body with
        | .str s => praptiDecodeStringBody cl contentType s
        | b => pure b.asJSVal
      let validatedData ← cl.parse sch parsedBody
      match body with
      | .formData _ => do
        let fd ← objectToFormData validatedData .native
        pure { url := input, fetchOptions := opts.fetchOptions,
               headers := finalHeaders, body := some (.formData fd) }
      | .urlParams _ => do
        let ps ← objectToUrlSearchParams validatedData
        pure { url := input, fetchOptions := opts.fetchOptions,
               headers := finalHeaders, body := some (.urlParams ps) }
      | _ =>
        let serialized : JSBody × Bool :=
          match validatedData with
          | .str s =>
            if cl.isJsonCT contentType then
              (.str (cl.serializer.stringify (.str s)), true)
            else
              (.str s, false)
          | v => (.str (cl.serializer.stringify v), true)
        let usedJsonSerializer := serialized.2
        let canAutoSetContentType := requestHeadersSchema.isNone
        let outHeaders :=
          if usedJsonSerializer ∧ canAutoSetContentType ∧
              ¬ finalHeaders.has "Content-Type" then
            finalHeaders.set "Content-Type" "application/json"
          else finalHeaders
        pure { url := input, fetchOptions := opts.fetchOptions,
               headers := outHeaders, body := some serialized.1 }
    | none =>
      match body with
      | .plain v =>
        let outHeaders :=
          if ¬ finalHeaders.has "Content-Type" then
            finalHeaders.set "Content-Type" "application/json"
          else finalHeaders
        pure { url := input, fetchOptions := opts.fetchOptions,
               headers := outHeaders,
               body := some (.str (cl.serializer.stringify v)) }
      | b =>
        pure { url := input, fetchOptions := opts.fetchOptions,
               headers := finalHeaders, body := some b }

/-- The transport requests a `Prapti.fetch` call actually issues: one on
success, none when the pipeline rejects beforehand. -/
def praptiIssuedRequests (cl : PraptiClient) (input : String)
    (options : Option PraptiOptions) : List TransportRequest :=
  match praptiBuildRequest cl input options with
  | .ok r => [r]
  | .error _ => []

/-- How the native transport coerces a body argument: native shapes pass
through; a plain object is stringified with `String(·)` (the `USVString`
conversion of the fetch body extraction). -/
def nativeBodyCoerce : JSBody → JSBody
  | .plain v => .str (jsToString v)
  | b => b

/-- The transport request produced by calling the native transport
directly with the same arguments: headers filled by `new Headers(init)`,
body coerced natively, every other option verbatim. -/
def nativeTransportRequest (input : String) (options : Option PraptiOptions) :
    TransportRequest :=
  let opts := options.getD {}
  { url := input, fetchOptions := opts.fetchOptions,
    headers := headersOfInit opts.headers,
    body := opts.body.map nativeBodyCoerce }

/-! ## The response decorator -/

/-- A native transport response: its headers, its body stream's content
(the decorator only reads it as text or parsed text) and the stream's
one-shot `bodyUsed` flag. -/
structure NativeResponse where
  headers : HMap
  bodyContent : String
  bodyUsed : Bool
deriving Repr

/-- Native `Response.text()`: consumes the one-shot body stream; a second
read throws. -/
def NativeResponse.text (r : NativeResponse) :
    Except String (String × NativeResponse) :=
  if r.bodyUsed then .error "TypeError: Body already used"
  else .ok (r.bodyContent, { r with bodyUsed := true })

/-- Native `Response.clone()`: tee the undisturbed body stream, leaving
the original readable and producing an independently readable copy;
cloning a consumed response throws. -/
def NativeResponse.clone (r : NativeResponse) :
    Except String (NativeResponse × NativeResponse) :=
  if r.bodyUsed then .error "TypeError: cannot clone a disturbed response"
  else .ok (r, { r with bodyUsed := false })

/-- Native `Response.json()`: read the one-shot body text and parse it
with the host's JSON parser (passed in as `jsonParse`); no schema
validation and no configurable serializer are involved. -/
def NativeResponse.json (jsonParse : String → Except String JSVal)
    (r : NativeResponse) : Except String (JSVal × NativeResponse) := do
  let (t, r₁) ← r.text
  let v ← jsonParse t
  pure (v, r₁)

/-- The decorator state: the `Response` the constructor built (from the
clone's stream when the input was still unconsumed), the adapter and
schema handles, the serializer, and the validated-headers cache whose
unset sentinel is the JS value `undefined`. -/
structure ValidatedResponse where
  inner : NativeResponse
  adapter : Nat → JSVal → Except String JSVal
  serializer : SerializationAdapter
  responseSchema : Option Nat := none
  responseHeadersSchema : Option Nat := none
  validatedHeadersCache : JSVal := (.undef)

/-- The `headers.forEach` loop shared by `rawHeaders` and the
constructor's header validation: response headers as a plain lower-cased
record. -/
def responseRawHeaders (headers : HMap) : HMap :=
  headers.foldl (fun obj e => hmapSetGo obj (lowerStr e.1) e.2) []

/-- `ValidatedResponse.rawHeaders()`: the response headers as a plain
lower-cased record. -/
def ValidatedResponse.rawHeaders (vr : ValidatedResponse) : HMap :=
  responseRawHeaders vr.inner.headers

/-- The outcome of running the `ValidatedResponse` constructor: the new
decorator, the caller's underlying response as it is left afterwards, and
how many times the validation adapter was invoked. -/
structure VRBuild where
  vr : ValidatedResponse
  original : NativeResponse
  parseCalls : Nat

/-- The `ValidatedResponse` constructor: pick `response` itself when its
body is already consumed, otherwise read from `response.clone()`; then,
if a response headers schema was supplied, eagerly validate the headers
into the cache (a throw rejects construction). -/
def ValidatedResponse.mk' (response : NativeResponse)
    (adapter : Nat → JSVal → Except String JSVal)
    (responseSchema responseHeadersSchema : Option Nat)
    (serializer : SerializationAdapter) : Except String VRBuild := do
  let pair : NativeResponse × NativeResponse ←
    if response.bodyUsed then pure (response, response)
    else do
      let (orig, copy) ← NativeResponse.clone response
      pure (copy, orig)
  let st : ValidatedResponse :=
    { inner := pair.1, adapter := adapter, serializer := serializer,
      responseSchema := responseSchema,
      responseHeadersSchema := responseHeadersSchema,
      validatedHeadersCache := .undef }
  match responseHeadersSchema with
  | some sch => do
    let v ← adapter sch (hmapToJS st.rawHeaders)
    pure ⟨{ st with validatedHeadersCache := v }, pair.2, 1⟩
  | none => pure ⟨st, pair.2, 0⟩

/-- One access of the `validatedHeaders` getter: return the cache when it
is not `undefined`, otherwise (re-)invoke the adapter and cache the
result; without a schema return the raw header record.  The `Nat` counts
adapter invocations performed by this access. -/
def ValidatedResponse.validatedHeadersAccess (vr : ValidatedResponse) :
    Except String (JSVal × ValidatedResponse × Nat) :=
  match vr.responseHeadersSchema with
  | some sch =>
    if vr.validatedHeadersCache.isUndef then
      match vr.adapter sch (hmapToJS vr.rawHeaders) with
      | .ok v => .ok (v, { vr with validatedHeadersCache := v }, 1)
      | .error e => .error e
    else
      .ok (vr.validatedHeadersCache, vr, 0)
  | none => .ok (hmapToJS vr.rawHeaders, vr, 0)

/-- Access `validatedHeaders` `n` times in sequence, summing the adapter
invocations. -/
def accessValidatedHeadersTimes : Nat → ValidatedResponse →
    Except String (ValidatedResponse × Nat)
  | 0, vr => .ok (vr, 0)
  | n + 1, vr => do
    let (_, vr₁, c) ← vr.validatedHeadersAccess
    let (vr₂, c') ← accessValidatedHeadersTimes n vr₁
    pure (vr₂, c + c')

/-- `ValidatedResponse.text()`: read the underlying one-shot body. -/
def ValidatedResponse.text (vr : ValidatedResponse) :
    Except String (String × ValidatedResponse) := do
  let (t, inner₁) ← vr.inner.text
  pure (t, { vr with inner := inner₁ })

/-- `ValidatedResponse.json()`: read the body text, parse it with the
serializer and validate with the response body schema when present. -/
def ValidatedResponse.json (vr : ValidatedResponse) :
    Except String (JSVal × ValidatedResponse) := do
  let (t, inner₁) ← vr.inner.text
  let data ← vr.serializer.parse t
  let vr₁ := { vr with inner := inner₁ }
  match vr.responseSchema with
  | some sch => do
    let v ← vr.adapter sch data
    pure (v, vr₁)
  | none => pure (data, vr₁)

/-- `clone()` on the decorator: the subclass declares no override, so the
inherited native `Response.clone` runs — it tees the inner stream, leaves
the decorator (with all its state) on the original instance, and returns
a plain `Response` that carries none of the decorator's own properties or
validating methods. -/
def ValidatedResponse.clone (vr : ValidatedResponse) :
    Except String (ValidatedResponse × NativeResponse) := do
  let (a, b) ← vr.inner.clone
  pure ({ vr with inner := a }, b)

/-! ## Concrete fixtures used by witnesses and counterexamples -/

mutual

/-- A small JSON-like encoder over `JSVal`, the `stringify` of the sample
serializer used in witnesses (witness values contain no characters that
would need escaping). -/
def sampleStringify : JSVal → String
  | .str s => "\"" ++ s ++ "\""
  | .num n => toString n
  | .bool b => cond b "true" "false"
  | .null => "null"
  | .undef => "null"
  | .arr l => "[" ++ String.intercalate "," (sampleStringifyList l) ++ "]"
  | .obj l => "\x7b" ++ String.intercalate "," (sampleStringifyEntries l) ++ "\x7d"
  | .blob _ => "\x7b\x7d"

/-- Encoder for array elements. -/
def sampleStringifyList : List JSVal → List String
  | [] => []
  | v :: vs => sampleStringify v :: sampleStringifyList vs

/-- Encoder for object entries. -/
def sampleStringifyEntries : List (String × JSVal) → List String
  | [] => []
  | e :: l => ("\"" ++ e.1 ++ "\":" ++ sampleStringify e.2) :: sampleStringifyEntries l

end

/-- The sample parser: recognises the two documents the witnesses feed it
and rejects everything else with a parse-failure message, the way
`JSON.parse` throws on malformed input. -/
def sampleParse (s : String) : Except String JSVal :=
  if s = "\"ok\"" then .ok (.str "ok")
  else if s = "\x7b\"foo\":\"bar\"\x7d" then .ok (.obj [("foo", .str "bar")])
  else .error ("Unexpected token in JSON: " ++ s)

/-- A concrete serialization adapter for witnesses (no custom
content-type predicate, so the default one applies). -/
def sampleSerializer : SerializationAdapter :=
  { stringify := sampleStringify, parse := sampleParse }

/-- The identity validation adapter: every schema passes its input
through unchanged. -/
def idAdapter : Nat → JSVal → Except String JSVal := fun _ v => .ok v

/-- An adapter whose validated result is the JS value `undefined` for
every schema. -/
def undefAdapter : Nat → JSVal → Except String JSVal :=
  fun _ _ => .ok (.undef)

/-! ## Specification-side predicates and projections -/

/-- Well-formedness of a normalized header record: all keys lower-case
and no duplicate keys (the invariant of everything `headersToObject`
produces). -/
def HMapWF (m : HMap) : Prop :=
  (∀ e ∈ m, IsLowerStr e.1) ∧ (m.map Prod.fst).Nodup

/-- A header init in which, case-insensitively, no name repeats and every
value is a string — one logical header set presented in some shape. -/
def HeadersInitGood : Option HeadersInit → Prop
  | none => True
  | some (.record l) =>
    (l.map fun e => lowerStr e.1).Nodup ∧ ∀ e ∈ l, e.2.isString = true
  | some (.pairs l) =>
    (l.map fun e => lowerStr e.1).Nodup ∧ ∀ e ∈ l, e.2.isString = true
  | some (.native m) => HMapWF m

/-- The string entries a record/pair header init denotes (values coerced
with `String(·)`). -/
def stringEntries (l : List (String × JSVal)) : List (String × String) :=
  l.map fun e => (e.1, jsToString e.2)

/-- A value that can sit in a form-data entry on the wire: a string or a
`Blob` (in particular never an array and never `undefined`). -/
def isWireVal : JSVal → Bool
  | .str _ => true
  | .blob _ => true
  | _ => false

/-- The ordered values a form-data entry list holds for one key. -/
def fdValues (l : List (String × JSVal)) (k : String) : List JSVal :=
  (l.filter fun e => e.1 == k).map (·.2)

/-- The ordered values a url-search-params entry list holds for one key. -/
def spValues (l : List (String × String)) (k : String) : List String :=
  (l.filter fun e => e.1 == k).map (·.2)

/-- The scalar/sequence asymmetry of the flattened record: no occurrence
is absence, one occurrence stays scalar, several become the ordered
array. -/
def groupVals : List JSVal → Option JSVal
  | [] => none
  | [v] => some v
  | vs => some (.arr vs)

/-- The body of a transport request when it is a raw string. -/
def reqBodyString (r : TransportRequest) : Option String :=
  match r.body with
  | some (.str s) => some s
  | _ => none

/-! ## Concrete inputs used by witnesses and counterexamples -/

/-- A client over the identity adapter and the sample serializer. -/
def sampleClient : PraptiClient :=
  { parse := idAdapter, serializer := sampleSerializer }

/-- No validation, a pair-sequence that repeats the header name `a` with
two casings, and a plain-object body: the call on which the pipeline and
the bare transport part ways. -/
def dupHeaderOpts : PraptiOptions :=
  { headers := some (.pairs [("A", .str "1"), ("a", .str "2")]),
    body := some (.plain (.obj [("foo", .str "bar")])) }

/-- An invalid JSON string body declared as `application/json`, with no
validation configured. -/
def invalidJsonNoSchemaOpts : PraptiOptions :=
  { headers := some (.record [("Content-Type", .str "application/json")]),
    body := some (.str "\x7binvalid-json\x7d") }

/-- The same invalid JSON string body with a request body schema. -/
def invalidJsonWithSchemaOpts : PraptiOptions :=
  { validate := some { request := some { body := some 7 } },
    headers := some (.record [("Content-Type", .str "application/json")]),
    body := some (.str "\x7binvalid-json\x7d") }

/-- An adapter that validates headers to the fixed record
`{x-api: "k"}` (emitting no content-type). -/
def fixedHeadersAdapter : Nat → JSVal → Except String JSVal :=
  fun _ _ => .ok (.obj [("x-api", .str "k")])

/-- A client whose header schemas validate to `{x-api: "k"}`. -/
def fixedHeadersClient : PraptiClient :=
  { parse := fixedHeadersAdapter, serializer := sampleSerializer }

/-- A request header schema, no body schema, and a plain-object body with
no caller content-type. -/
def headerSchemaPlainBodyOpts : PraptiOptions :=
  { validate := some { request := some { headers := some 3 } },
    headers := some (.record [("x-api", .str "k0")]),
    body := some (.plain (.obj [("foo", .str "bar")])) }

/-- A raw string body with a body schema and no content-type header. -/
def stringBodyNoCTOpts : PraptiOptions :=
  { validate := some { request := some { body := some 1 } },
    body := some (.str "hi") }

/-- A response carrying one custom header and the body text `"ok"`
(an encoded JSON string document), not yet consumed. -/
def sampleResponse : NativeResponse :=
  { headers := [("x-custom", "value")], bodyContent := "\"ok\"", bodyUsed := false }

/-- A decorator over `sampleResponse` with no schemas. -/
def sampleVR : ValidatedResponse :=
  { inner := sampleResponse, adapter := idAdapter, serializer := sampleSerializer }

/-- An adapter that validates every value to the fixed string
`"validated"`. -/
def transformAdapter : Nat → JSVal → Except String JSVal :=
  fun _ _ => .ok (.str "validated")

/-- A decorator over `sampleResponse` whose response body schema
transforms the parsed body. -/
def schemaVR : ValidatedResponse :=
  { inner := sampleResponse, adapter := transformAdapter,
    serializer := sampleSerializer, responseSchema := some 7 }

/-- The header-validation adapter of the mode witnesses: emits a new
value for `a` and deletes `x-null`. -/
def modesAdapter : Nat → JSVal → Except String JSVal :=
  fun _ _ => .ok (.obj [("a", .str "A1"), ("x-null", .null)])

/-- A `preserve`-mode client over `modesAdapter`. -/
def preserveClient : PraptiClient :=
  { parse := modesAdapter, serializer := sampleSerializer,
    headerValidationMode := .preserve }

/-- A `strict`-mode client over `modesAdapter`. -/
def strictClient : PraptiClient :=
  { parse := modesAdapter, serializer := sampleSerializer,
    headerValidationMode := .strict }

/-- The normalized original headers of the mode witnesses. -/
def modesRawHeaders : HMap := [("a", "1"), ("b", "2"), ("x-null", "n")]

/-- A request header schema, no body schema, the mode-witness headers and
a plain-object body with no caller content-type. -/
def modesPlainOpts : PraptiOptions :=
  { validate := some { request := some { headers := some 3 } },
    headers := some (.record
      [("a", .str "1"), ("b", .str "2"), ("x-null", .str "n")]),
    body := some (.plain (.obj [("foo", .str "bar")])) }

/-- A caller-supplied vendor-JSON content-type with a plain-object body
and no validation. -/
def vndContentTypeOpts : PraptiOptions :=
  { headers := some (.record [("Content-Type", .str "application/vnd.api+json")]),
    body := some (.plain (.obj [("foo", .str "bar")])) }

/-- Both request schemas configured, a plain-object body, and no caller
content-type. -/
def bothSchemasOpts : PraptiOptions :=
  { validate := some { request := some { body := some 1, headers := some 3 } },
    headers := some (.record [("x-api", .str "k0")]),
    body := some (.plain (.obj [("foo", .str "bar")])) }

/-- A JSON string body (`"ok"`) under `content-type: application/json`
with a request body schema. -/
def jsonStringBodyOpts : PraptiOptions :=
  { validate := some { request := some { body := some 1 } },
    headers := some (.record [("Content-Type", .str "application/json")]),
    body := some (.str "\"ok\"") }

/-- A plain-text string body with a request body schema. -/
def textPlainStringBodyOpts : PraptiOptions :=
  { validate := some { request := some { body := some 1 } },
    headers := some (.record [("Content-Type", .str "text/plain")]),
    body := some (.str "hello world") }

/-- How `appendFormDataValue` in `native` mode lands a single value in
the rebuilt container: `Blob`s as-is, everything else through
`String(·)`. -/
def fdCoerce : JSVal → JSVal
  | .blob b => .blob b
  | v => .str (jsToString v)

/-- The entry list `objectToFormData` produces in `native` mode: each
record entry contributes its array elements (or its single value) in
order under its key. -/
def rebuiltEntries (obj : List (String × JSVal)) : List (String × JSVal) :=
  obj.flatMap fun e =>
    match e.2 with
    | .arr items => items.map fun it => (e.1, fdCoerce it)
    | v => [(e.1, fdCoerce v)]

/-- The entry list `objectToUrlSearchParams` produces: every value is
`String(·)`-coerced. -/
def spRebuiltEntries (obj : List (String × JSVal)) : List (String × String) :=
  obj.flatMap fun e =>
    match e.2 with
    | .arr items => items.map fun it => (e.1, jsToString it)
    | v => [(e.1, jsToString v)]

/-! ## Association-list lemmas -/

/-! ### Normalization idempotence -/

theorem lowerChar_idem (c : Char) : lowerChar (lowerChar c) = lowerChar c := by
  unfold lowerChar
  by_cases h : c.toNat ≥ 65 ∧ c.toNat ≤ 90
  · rw [if_pos h]
    have hval : Nat.isValidChar (c.toNat + 32) := Or.inl (by omega)
    have htn : (Char.ofNat (c.toNat + 32)).toNat = c.toNat + 32 := by
      unfold Char.ofNat
      rw [dif_pos hval]
      rfl
    have hnot : ¬((Char.ofNat (c.toNat + 32)).toNat ≥ 65 ∧
        (Char.ofNat (c.toNat + 32)).toNat ≤ 90) := by
      rw [htn]; omega
    rw [if_neg hnot]
  · rw [if_neg h, if_neg h]

theorem lowerStr_idem (s : String) : lowerStr (lowerStr s) = lowerStr s := by
  unfold lowerStr
  simp only [List.map_map]
  congr 1
  induction s.data with
  | nil => rfl
  | cons c cs ih => simp [lowerChar_idem, ih]

theorem isLowerStr_lowerStr (s : String) : IsLowerStr (lowerStr s) :=
  lowerStr_idem s


theorem hmapGetGo_setGo (m : List (String × String)) (kl kl' v : String) :
    hmapGetGo (hmapSetGo m kl v) kl' =
      if kl' = kl then some v else hmapGetGo m kl' := by
  induction m with
  | nil =>
    by_cases h : kl' = kl
    · subst h; simp [hmapSetGo, hmapGetGo]
    · have h2 : ¬ kl = kl' := fun hc => h hc.symm
      simp [hmapSetGo, hmapGetGo, h, h2]
  | cons e rest ih =>
    by_cases he : e.1 = kl
    · by_cases h : kl' = kl
      · subst h; simp [hmapSetGo, hmapGetGo, he]
      · have h2 : ¬ kl = kl' := fun hc => h hc.symm
        have h3 : ¬ e.1 = kl' := fun hc => h2 (he ▸ hc)
        simp [hmapSetGo, hmapGetGo, he, h, h2, h3]
    · by_cases h : kl' = e.1
      · have h4 : ¬ kl' = kl := fun hc => he (by rw [← h]; exact hc)
        have h5 : e.1 = kl' := h.symm
        simp [hmapSetGo, hmapGetGo, he, h4, h5]
      · have h6 : ¬ e.1 = kl' := fun hc => h hc.symm
        simp [hmapSetGo, hmapGetGo, he, h, h6, ih]

theorem hmapGetGo_deleteGo (m : List (String × String)) (kl kl' : String) :
    hmapGetGo (hmapDeleteGo m kl) kl' =
      if kl' = kl then none else hmapGetGo m kl' := by
  induction m with
  | nil => simp [hmapDeleteGo, hmapGetGo]
  | cons e rest ih =>
    by_cases he : e.1 = kl
    · by_cases h : kl' = kl
      · subst h; simp [hmapDeleteGo, hmapGetGo, he, ih]
      · have h2 : ¬ kl = kl' := fun hc => h hc.symm
        have h3 : ¬ e.1 = kl' := fun hc => h (by rw [← hc]; exact he)
        simp [hmapDeleteGo, hmapGetGo, he, h, h2, h3, ih]
    · by_cases h : kl' = e.1
      · have h4 : ¬ kl' = kl := fun hc => he (by rw [← h]; exact hc)
        have h5 : e.1 = kl' := h.symm
        simp [hmapDeleteGo, hmapGetGo, he, h4, h5]
      · have h6 : ¬ e.1 = kl' := fun hc => h hc.symm
        simp [hmapDeleteGo, hmapGetGo, he, h, h6, ih]

theorem HMap.get_set (m : HMap) (k v k' : String) :
    (m.set k v).get k' =
      if lowerStr k' = lowerStr k then some v else m.get k' :=
  hmapGetGo_setGo m (lowerStr k) (lowerStr k') v

theorem HMap.get_delete (m : HMap) (k k' : String) :
    (m.delete k).get k' =
      if lowerStr k' = lowerStr k then none else m.get k' :=
  hmapGetGo_deleteGo m (lowerStr k) (lowerStr k')

theorem HMap.get_setAll (m : HMap) (entries : List (String × String)) (k : String) :
    (HMap.setAll m entries).get k =
      match lookupLastBy entries (lowerStr k) with
      | some v => some v
      | none => m.get k := by
  induction entries generalizing m with
  | nil => simp [HMap.setAll, lookupLastBy]
  | cons e rest ih =>
    show (HMap.setAll (m.set e.1 e.2) rest).get k = _
    rw [ih]
    by_cases hr : (lookupLastBy rest (lowerStr k)).isSome
    · obtain ⟨v, hv⟩ := Option.isSome_iff_exists.mp hr
      simp [lookupLastBy, hv]
    · have hnone : lookupLastBy rest (lowerStr k) = none :=
        Option.not_isSome_iff_eq_none.mp hr
      rw [hnone]
      simp only [lookupLastBy, hnone, HMap.get_set]
      by_cases h : lowerStr k = lowerStr e.1
      · simp [h]
      · have h' : ¬ (lowerStr e.1 = lowerStr k) := fun hc => h hc.symm
        simp [h, h']

theorem get_applyValidatedHeaders (m : HMap) (l : List (String × JSVal)) (k : String) :
    (applyValidatedHeaders m l).get k =
      match lastHeaderAction l (lowerStr k) with
      | some v => if v.isNullish then none else some (jsToString v)
      | none => m.get k := by
  induction l generalizing m with
  | nil => simp [applyValidatedHeaders, lastHeaderAction]
  | cons e rest ih =>
    show (applyValidatedHeaders
      (if e.2.isNullish then m.delete e.1 else m.set e.1 (jsToString e.2)) rest).get k = _
    rw [ih]
    by_cases hr : (lastHeaderAction rest (lowerStr k)).isSome
    · obtain ⟨v, hv⟩ := Option.isSome_iff_exists.mp hr
      simp [lastHeaderAction, hv]
    · have hnone : lastHeaderAction rest (lowerStr k) = none :=
        Option.not_isSome_iff_eq_none.mp hr
      simp only [lastHeaderAction, hnone]
      by_cases hn : e.2.isNullish
      · simp only [hn, if_pos, HMap.get_delete]
        by_cases h : lowerStr k = lowerStr e.1
        · simp [h, hn]
        · have h2 : ¬ (lowerStr e.1 = lowerStr k) := fun hc => h hc.symm
          simp [h, h2, hn]
      · simp only [hn, Bool.false_eq_true, if_false, HMap.get_set]
        by_cases h : lowerStr k = lowerStr e.1
        · simp [h, hn]
        · have h2 : ¬ (lowerStr e.1 = lowerStr k) := fun hc => h hc.symm
          simp [h, h2, hn]

theorem hmapGetGo_append (m₁ m₂ : List (String × String)) (kl : String) :
    hmapGetGo (m₁ ++ m₂) kl =
      match hmapGetGo m₁ kl with
      | some v => some v
      | none => hmapGetGo m₂ kl := by
  induction m₁ with
  | nil => simp [hmapGetGo]
  | cons e rest ih =>
    by_cases he : e.1 = kl <;> simp [hmapGetGo, he, ih]

theorem hmapSetGo_of_absent (m : List (String × String)) (kl v : String)
    (h : hmapGetGo m kl = none) : hmapSetGo m kl v = m ++ [(kl, v)] := by
  induction m with
  | nil => rfl
  | cons e rest ih =>
    simp only [hmapGetGo] at h
    by_cases he : e.1 = kl
    · simp [he] at h
    · simp only [he, if_false] at h
      simp [hmapSetGo, he, ih h]

theorem mem_keys_setGo (m : List (String × String)) (kl v a : String) :
    a ∈ (hmapSetGo m kl v).map Prod.fst ↔ a = kl ∨ a ∈ m.map Prod.fst := by
  induction m with
  | nil => simp [hmapSetGo]
  | cons e rest ih =>
    by_cases he : e.1 = kl
    · simp [hmapSetGo, he]
    · simp [hmapSetGo, he, ih]
      tauto

theorem mem_setGo (m : List (String × String)) (kl v : String)
    (x : String × String) (hx : x ∈ hmapSetGo m kl v) :
    x = (kl, v) ∨ x ∈ m := by
  induction m with
  | nil => simpa [hmapSetGo] using hx
  | cons e rest ih =>
    by_cases he : e.1 = kl
    · simp only [hmapSetGo, he, if_pos, List.mem_cons] at hx
      rcases hx with hx | hx
      · exact Or.inl hx
      · exact Or.inr (List.mem_cons_of_mem e hx)
    · simp only [hmapSetGo, he, if_false, List.mem_cons] at hx
      rcases hx with hx | hx
      · exact Or.inr (hx ▸ List.mem_cons_self e rest)
      · rcases ih hx with h | h
        · exact Or.inl h
        · exact Or.inr (List.mem_cons_of_mem e h)

theorem nodup_keys_setGo (m : List (String × String)) (kl v : String)
    (hn : (m.map Prod.fst).Nodup) : ((hmapSetGo m kl v).map Prod.fst).Nodup := by
  induction m with
  | nil => simp [hmapSetGo]
  | cons e rest ih =>
    simp only [List.map_cons, List.nodup_cons] at hn
    by_cases he : e.1 = kl
    · simp only [hmapSetGo, he, if_pos, List.map_cons, List.nodup_cons]
      exact ⟨he ▸ hn.1, hn.2⟩
    · simp only [hmapSetGo, he, if_false, List.map_cons, List.nodup_cons]
      refine ⟨?_, ih hn.2⟩
      intro hmem
      rcases (mem_keys_setGo rest kl v e.1).mp hmem with h | h
      · exact he h
      · exact hn.1 h

theorem hmapWF_setGo (m : HMap) (kl v : String) (hkl : IsLowerStr kl)
    (hm : HMapWF m) : HMapWF (hmapSetGo m kl v) := by
  refine ⟨fun x hx => ?_, nodup_keys_setGo m kl v hm.2⟩
  rcases mem_setGo m kl v x hx with h | h
  · subst h; exact hkl
  · exact hm.1 x h

theorem hmapDeleteGo_eq_filter (m : List (String × String)) (kl : String) :
    hmapDeleteGo m kl = m.filter (fun e => e.1 != kl) := by
  induction m with
  | nil => rfl
  | cons e rest ih =>
    by_cases he : e.1 = kl
    · simp [hmapDeleteGo, he, ih, List.filter]
    · have hb : (e.1 != kl) = true := bne_iff_ne.mpr he
      simp [hmapDeleteGo, he, ih, List.filter, hb]

theorem hmapWF_deleteGo (m : HMap) (kl : String) (hm : HMapWF m) :
    HMapWF (hmapDeleteGo m kl) := by
  rw [hmapDeleteGo_eq_filter]
  obtain ⟨hl, hn⟩ := hm
  refine ⟨fun e he => hl e (List.mem_of_mem_filter he), ?_⟩
  exact List.Nodup.sublist (List.Sublist.map Prod.fst (List.filter_sublist m)) hn

theorem hmapWF_foldl {α : Type} (l : List α) (m : HMap)
    (f : HMap → α → HMap) (hm : HMapWF m)
    (hf : ∀ acc a, HMapWF acc → HMapWF (f acc a)) : HMapWF (l.foldl f m) := by
  induction l generalizing m with
  | nil => exact hm
  | cons a rest ih => exact ih _ (hf m a hm)

theorem hmapWF_nil : HMapWF [] := ⟨by simp, by simp⟩

theorem headersToObject_wf (h : Option HeadersInit) : HMapWF (headersToObject h) := by
  match h with
  | none => exact hmapWF_nil
  | some (.native m) =>
    exact hmapWF_foldl m [] _ hmapWF_nil
      (fun acc e hw => hmapWF_setGo acc _ e.2 (isLowerStr_lowerStr e.1) hw)
  | some (.pairs l) =>
    refine hmapWF_foldl l [] _ hmapWF_nil (fun acc e hw => ?_)
    by_cases hn : e.2.isNullish <;> simp only [hn, if_pos, if_false]
    · exact hw
    · exact hmapWF_setGo acc _ _ (isLowerStr_lowerStr e.1) hw
  | some (.record l) =>
    refine hmapWF_foldl l [] _ hmapWF_nil (fun acc e hw => ?_)
    by_cases hn : e.2.isNullish <;> simp only [hn, if_pos, if_false]
    · exact hw
    · exact hmapWF_setGo acc _ _ (isLowerStr_lowerStr e.1) hw

theorem foldl_congr_of_mem {α β : Type} (l : List α) (b : β) (f g : β → α → β)
    (h : ∀ x ∈ l, ∀ acc, f acc x = g acc x) : l.foldl f b = l.foldl g b := by
  induction l generalizing b with
  | nil => rfl
  | cons a rest ih =>
    rw [List.foldl_cons, List.foldl_cons, h a (List.mem_cons_self a rest)]
    exact ih _ (fun x hx acc => h x (List.mem_cons_of_mem a hx) acc)

theorem setAll_of_fresh (entries : List (String × String)) (m : HMap)
    (hfresh : ∀ e ∈ entries, m.get e.1 = none)
    (hnd : (entries.map fun e => lowerStr e.1).Nodup) :
    HMap.setAll m entries = m ++ (entries.map fun e => (lowerStr e.1, e.2)) := by
  induction entries generalizing m with
  | nil => simp [HMap.setAll]
  | cons e rest ih =>
    simp only [List.map_cons, List.nodup_cons] at hnd
    have hstep : m.set e.1 e.2 = m ++ [(lowerStr e.1, e.2)] :=
      hmapSetGo_of_absent m (lowerStr e.1) e.2 (hfresh e (List.mem_cons_self e rest))
    have hfresh' : ∀ e' ∈ rest, (m ++ [(lowerStr e.1, e.2)]).get e'.1 = none := by
      intro e' he'
      show hmapGetGo (m ++ [(lowerStr e.1, e.2)]) (lowerStr e'.1) = none
      rw [hmapGetGo_append]
      have h1 : hmapGetGo m (lowerStr e'.1) = none :=
        hfresh e' (List.mem_cons_of_mem e he')
      rw [h1]
      have hne : ¬ (lowerStr e.1 = lowerStr e'.1) := by
        intro hc
        exact hnd.1 (hc ▸ List.mem_map_of_mem (fun x => lowerStr x.1) he')
      simp [hmapGetGo, hne]
    show HMap.setAll (m.set e.1 e.2) rest = _
    rw [hstep, ih (m ++ [(lowerStr e.1, e.2)]) hfresh' hnd.2]
    simp

theorem appendAll_of_fresh (entries : List (String × String)) (m : HMap)
    (hfresh : ∀ e ∈ entries, m.get e.1 = none)
    (hnd : (entries.map fun e => lowerStr e.1).Nodup) :
    entries.foldl (fun acc e => acc.append e.1 e.2) m =
      m ++ (entries.map fun e => (lowerStr e.1, e.2)) := by
  induction entries generalizing m with
  | nil => simp
  | cons e rest ih =>
    simp only [List.map_cons, List.nodup_cons] at hnd
    have hstep : m.append e.1 e.2 = m ++ [(lowerStr e.1, e.2)] := by
      unfold HMap.append
      rw [hfresh e (List.mem_cons_self e rest)]
    have hfresh' : ∀ e' ∈ rest, (m ++ [(lowerStr e.1, e.2)]).get e'.1 = none := by
      intro e' he'
      show hmapGetGo (m ++ [(lowerStr e.1, e.2)]) (lowerStr e'.1) = none
      rw [hmapGetGo_append]
      have h1 : hmapGetGo m (lowerStr e'.1) = none :=
        hfresh e' (List.mem_cons_of_mem e he')
      rw [h1]
      have hne : ¬ (lowerStr e.1 = lowerStr e'.1) := by
        intro hc
        exact hnd.1 (hc ▸ List.mem_map_of_mem (fun x => lowerStr x.1) he')
      simp [hmapGetGo, hne]
    show List.foldl _ (m.append e.1 e.2) rest = _
    rw [hstep, ih (m ++ [(lowerStr e.1, e.2)]) hfresh' hnd.2]
    simp

theorem headersToObject_pairs_eq_setAll (l : List (String × JSVal))
    (hs : ∀ e ∈ l, e.2.isNullish = false) :
    headersToObject (some (.pairs l)) = HMap.setAll [] (stringEntries l) := by
  show l.foldl _ [] = HMap.setAll [] (stringEntries l)
  rw [HMap.setAll, stringEntries, List.foldl_map]
  exact foldl_congr_of_mem l [] _ _ (fun x hx acc => by simp [hs x hx, HMap.set])

theorem headersToObject_record_eq_pairs (l : List (String × JSVal)) :
    headersToObject (some (.record l)) = headersToObject (some (.pairs l)) := rfl

theorem headersToObject_native_eq_setAll (m : HMap) :
    headersToObject (some (.native m)) = HMap.setAll [] m := rfl

theorem map_lower_keys_eq (m : HMap) (hm : ∀ e ∈ m, IsLowerStr e.1) :
    (m.map fun e => lowerStr e.1) = m.map Prod.fst :=
  List.map_congr_left (fun e he => hm e he)

theorem setAll_nil_self (m : HMap) (hm : HMapWF m) : HMap.setAll [] m = m := by
  rw [setAll_of_fresh m [] (fun e _ => rfl)
    ((map_lower_keys_eq m hm.1).symm ▸ hm.2)]
  have hmap : (m.map fun e => (lowerStr e.1, e.2)) = m := by
    have h := List.map_congr_left (l := m)
      (f := fun e : String × String => (lowerStr e.1, e.2)) (g := id)
      (fun e he => by
        have hl : lowerStr e.1 = e.1 := hm.1 e he
        simp [hl])
    simpa using h
  simp [hmap]

theorem headersOfInit_pairs_eq (l : List (String × JSVal))
    (hnd : (l.map fun e => lowerStr e.1).Nodup) :
    headersOfInit (some (.pairs l)) =
      (stringEntries l).map fun e => (lowerStr e.1, e.2) := by
  show l.foldl _ [] = _
  have h1 : l.foldl (fun (acc : HMap) e => acc.append e.1 (jsToString e.2)) [] =
      (stringEntries l).foldl (fun (acc : HMap) e => acc.append e.1 e.2) [] := by
    rw [stringEntries, List.foldl_map]
  rw [h1, appendAll_of_fresh (stringEntries l) [] (fun e _ => rfl) ?hnd]
  · simp
  case hnd =>
    rw [stringEntries, List.map_map]
    exact hnd

theorem headersOfInit_record_eq_pairs (l : List (String × JSVal)) :
    headersOfInit (some (.record l)) = headersOfInit (some (.pairs l)) := rfl

theorem isString_not_nullish (v : JSVal) (h : v.isString = true) :
    v.isNullish = false := by
  cases v <;> simp_all [JSVal.isString, JSVal.isNullish]

theorem map_lower_entries_self (m : HMap) (hm : ∀ e ∈ m, IsLowerStr e.1) :
    (m.map fun e => (lowerStr e.1, e.2)) = m := by
  have h := List.map_congr_left (l := m)
    (f := fun e : String × String => (lowerStr e.1, e.2)) (g := id)
    (fun e he => by
      have hl : lowerStr e.1 = e.1 := hm e he
      simp [hl])
  simpa using h

theorem nativeBodyCoerce_native (b : JSBody) (h : b.isNativeShape = true) :
    nativeBodyCoerce b = b := by
  cases b <;> simp_all [JSBody.isNativeShape, nativeBodyCoerce]

theorem stringEntries_not_nullish (l : List (String × JSVal))
    (hstr : ∀ e ∈ l, e.2.isString = true) : ∀ e ∈ l, e.2.isNullish = false :=
  fun e he => isString_not_nullish e.2 (hstr e he)

theorem headersToObject_pairs_entries (l : List (String × JSVal))
    (hnd : (l.map fun e => lowerStr e.1).Nodup)
    (hnn : ∀ e ∈ l, e.2.isNullish = false) :
    headersToObject (some (.pairs l)) =
      (stringEntries l).map fun e => (lowerStr e.1, e.2) := by
  rw [headersToObject_pairs_eq_setAll l hnn,
    setAll_of_fresh (stringEntries l) [] (fun e _ => rfl) ?hnd]
  · simp
  case hnd =>
    rw [stringEntries, List.map_map]
    exact hnd

theorem headers_normalize_eq_native (h : Option HeadersInit)
    (hh : HeadersInitGood h) :
    HMap.setAll [] (headersToObject h) = headersOfInit h := by
  match h with
  | none => rfl
  | some (.pairs l) =>
    obtain ⟨hnd, hstr⟩ := hh
    have hnn := stringEntries_not_nullish l hstr
    rw [setAll_nil_self _ (headersToObject_wf (some (.pairs l))),
      headersToObject_pairs_entries l hnd hnn, headersOfInit_pairs_eq l hnd]
  | some (.record l) =>
    obtain ⟨hnd, hstr⟩ := hh
    have hnn := stringEntries_not_nullish l hstr
    rw [setAll_nil_self _ (headersToObject_wf (some (.record l))),
      headersToObject_record_eq_pairs, headersOfInit_record_eq_pairs,
      headersToObject_pairs_entries l hnd hnn, headersOfInit_pairs_eq l hnd]
  | some (.native m) =>
    rw [setAll_nil_self _ (headersToObject_wf (some (.native m)))]
    rw [headersToObject_native_eq_setAll, setAll_nil_self m hh]
    show _ = m.foldl (fun (acc : HMap) e => acc.append e.1 e.2) []
    rw [appendAll_of_fresh m [] (fun e _ => rfl)
      ((map_lower_keys_eq m hh.1).symm ▸ hh.2)]
    simpa using (map_lower_entries_self m hh.1).symm

/-! ## Claim theorems -/

/-- C7: presenting one logical header set as a case-insensitive record,
as a pair-sequence or as a native `Headers` collection yields the
identical normalized mapping; every key of any normalized mapping is
lower-case; and in a pair-sequence a repeated name is resolved
last-write-wins (the last occurrence's value, not an accumulation). -/
theorem headersToObject_shape_invariance (l : List (String × JSVal))
    (hnd : (l.map fun e => lowerStr e.1).Nodup)
    (hstr : ∀ e ∈ l, e.2.isString = true) :
    headersToObject (some (.record l)) = headersToObject (some (.pairs l)) ∧
    headersToObject (some (.native (headersOfInit (some (.pairs l))))) =
      headersToObject (some (.pairs l)) ∧
    (∀ h : Option HeadersInit, ∀ e ∈ headersToObject h, IsLowerStr e.1) ∧
    (∀ pl : List (String × JSVal), (∀ e ∈ pl, e.2.isNullish = false) →
      ∀ k, (headersToObject (some (.pairs pl))).get k =
        lookupLastBy (stringEntries pl) (lowerStr k)) := by
  have hnn := stringEntries_not_nullish l hstr
  refine ⟨rfl, ?_, ?_, ?_⟩
  · have hM : HMapWF ((stringEntries l).map fun e => (lowerStr e.1, e.2)) := by
      constructor
      · intro e he
        obtain ⟨x, _, hx⟩ := List.mem_map.mp he
        rw [← hx]
        exact isLowerStr_lowerStr x.1
      · rw [List.map_map]
        show ((stringEntries l).map fun e => lowerStr e.1).Nodup
        rw [stringEntries, List.map_map]
        exact hnd
    rw [headersOfInit_pairs_eq l hnd, headersToObject_native_eq_setAll,
      setAll_nil_self _ hM, headersToObject_pairs_entries l hnd hnn]
  · intro h e he
    exact (headersToObject_wf h).1 e he
  · intro pl hpl k
    rw [headersToObject_pairs_eq_setAll pl hpl]
    show (HMap.setAll [] (stringEntries pl)).get k = _
    rw [HMap.get_setAll]
    cases lookupLastBy (stringEntries pl) (lowerStr k) <;> rfl

/-- Witness for C7 at the logical header set
`content-type: application/json, X-Custom: Value`, plus the last-wins
case `[A:1, a:2] ↦ a:2`. -/
theorem headersToObject_shape_invariance_witness :
    (headersToObject (some (.record
        [("Content-Type", .str "application/json"), ("X-Custom", .str "Value")])) =
      headersToObject (some (.pairs
        [("Content-Type", .str "application/json"), ("X-Custom", .str "Value")]))) ∧
    (headersToObject (some (.pairs [("A", .str "1"), ("a", .str "2")]))).get "a" =
      some "2" := by
  constructor
  · exact (headersToObject_shape_invariance
      [("Content-Type", .str "application/json"), ("X-Custom", .str "Value")]
      (by decide) (by simp [JSVal.isString])).1
  · have h := (headersToObject_shape_invariance
      [("Content-Type", .str "application/json"), ("X-Custom", .str "Value")]
      (by decide) (by simp [JSVal.isString])).2.2.2
      [("A", .str "1"), ("a", .str "2")] (by simp [JSVal.isNullish]) "a"
    rw [h]
    decide

theorem exceptBindOk {ε α β : Type} (a : α) (f : α → Except ε β) :
    ((Except.ok a : Except ε α) >>= f) = f a := rfl

theorem exceptBindErr {ε α β : Type} (e : ε) (f : α → Except ε β) :
    ((Except.error e : Except ε α) >>= f) = Except.error e := rfl

theorem exceptPure {ε α : Type} (a : α) :
    (pure a : Except ε α) = Except.ok a := rfl

theorem exceptMapErr {ε α β : Type} (f : α → β) (e : ε) :
    (Except.error e : Except ε α).map f = .error e := rfl

theorem exceptBindOkE {ε α β : Type} (a : α) (f : α → Except ε β) :
    (Except.ok a : Except ε α).bind f = f a := rfl

theorem exceptBindErrE {ε α β : Type} (e : ε) (f : α → Except ε β) :
    (Except.error e : Except ε α).bind f = .error e := rfl

theorem exceptFmapOk {ε α β : Type} (f : α → β) (a : α) :
    (f <$> (Except.ok a : Except ε α)) = .ok (f a) := rfl

theorem exceptFmapErr {ε α β : Type} (f : α → β) (e : ε) :
    (f <$> (Except.error e : Except ε α)) = .error e := rfl

theorem has_content_type_eq (m : HMap) :
    m.has "Content-Type" = (m.get "content-type").isSome := by
  unfold HMap.has HMap.get
  rw [show lowerStr "Content-Type" = lowerStr "content-type" from by decide]

theorem praptiHeaderPhase_no_schema (cl : PraptiClient) (raw : HMap) :
    praptiHeaderPhase cl none raw = .ok (HMap.setAll [] raw) := rfl

/-- C1 (amended): a call with no request validation schemas, a
native-shape body and a header set in which no name repeats
case-insensitively reaches the transport with exactly the arguments a
direct native call would produce: same URL, same passthrough options,
same header set and same body. -/
theorem prapti_no_validation_transport_identity (cl : PraptiClient)
    (input : String) (opts : PraptiOptions)
    (hrb : (opts.validate.bind (·.request)).bind (·.body) = none)
    (hrh : (opts.validate.bind (·.request)).bind (·.headers) = none)
    (hbody : opts.body.all JSBody.isNativeShape = true)
    (hh : HeadersInitGood opts.headers) :
    praptiBuildRequest cl input (some opts) =
      .ok (nativeTransportRequest input (some opts)) := by
  unfold praptiBuildRequest
  simp only [Option.getD, hrb, hrh, praptiHeaderPhase_no_schema]
  cases hb : opts.body with
  | none =>
    simp only [hb, exceptBindOk, nativeTransportRequest, Option.getD, hb]
    rw [headers_normalize_eq_native opts.headers hh]
    rfl
  | some b =>
    cases b with
    | plain v => rw [hb] at hbody; simp [Option.all, JSBody.isNativeShape] at hbody
    | str s =>
      simp only [hb, exceptBindOk, nativeTransportRequest, Option.getD]
      rw [headers_normalize_eq_native opts.headers hh]
      rfl
    | formData fd =>
      simp only [hb, exceptBindOk, nativeTransportRequest, Option.getD]
      rw [headers_normalize_eq_native opts.headers hh]
      rfl
    | urlParams ps =>
      simp only [hb, exceptBindOk, nativeTransportRequest, Option.getD]
      rw [headers_normalize_eq_native opts.headers hh]
      rfl
    | blob n =>
      simp only [hb, exceptBindOk, nativeTransportRequest, Option.getD]
      rw [headers_normalize_eq_native opts.headers hh]
      rfl
    | arrayBuffer n =>
      simp only [hb, exceptBindOk, nativeTransportRequest, Option.getD]
      rw [headers_normalize_eq_native opts.headers hh]
      rfl
    | typedView n =>
      simp only [hb, exceptBindOk, nativeTransportRequest, Option.getD]
      rw [headers_normalize_eq_native opts.headers hh]
      rfl
    | stream n =>
      simp only [hb, exceptBindOk, nativeTransportRequest, Option.getD]
      rw [headers_normalize_eq_native opts.headers hh]
      rfl

/-- C1 counterexample: with no validation configured, the pair-sequence
that repeats the name `a` reaches the transport as `a: 2` through the
pipeline (last-write-wins) but as the combined `a: 1, 2` through a direct
native call, and the plain-object body is serializer-encoded by the
pipeline but `String(·)`-coerced to `"[object Object]"` by the native
transport: the issued request is not the native one. -/
theorem prapti_no_validation_transport_identity_cex :
    (praptiBuildRequest sampleClient "https://api.example.com"
        (some dupHeaderOpts)).map (fun r => r.headers.get "a") = .ok (some "2") ∧
    (nativeTransportRequest "https://api.example.com"
        (some dupHeaderOpts)).headers.get "a" = some "1, 2" ∧
    (praptiBuildRequest sampleClient "https://api.example.com"
        (some dupHeaderOpts)).map reqBodyString =
      .ok (some "\x7b\"foo\":\"bar\"\x7d") ∧
    reqBodyString (nativeTransportRequest "https://api.example.com"
        (some dupHeaderOpts)) = some "[object Object]" ∧
    (some "2" : Option String) ≠ some "1, 2" ∧
    (some "\x7b\"foo\":\"bar\"\x7d" : Option String) ≠ some "[object Object]" :=
  ⟨rfl, rfl, rfl, rfl, by decide, by decide⟩

/-- Witness for C1 (amended) at a schema-free call with one text header
and a raw string body. -/
theorem prapti_no_validation_transport_identity_witness :
    praptiBuildRequest sampleClient "https://api.example.com"
        (some { headers := some (.pairs [("Content-Type", .str "text/plain")]),
                body := some (.str "hello") }) =
      .ok (nativeTransportRequest "https://api.example.com"
        (some { headers := some (.pairs [("Content-Type", .str "text/plain")]),
                body := some (.str "hello") })) :=
  prapti_no_validation_transport_identity sampleClient "https://api.example.com"
    { headers := some (.pairs [("Content-Type", .str "text/plain")]),
      body := some (.str "hello") }
    rfl rfl rfl ⟨by decide, by simp [JSVal.isString]⟩

theorem exceptMapOk {ε α β : Type} (f : α → β) (a : α) :
    (Except.ok a : Except ε α).map f = .ok (f a) := rfl

/-- With a request header schema configured, the final request's header
set is the header-phase output, except that the no-body-schema
plain-object auto-encode step may fill in `content-type`. -/
theorem build_headers_with_header_schema
    (cl : PraptiClient) (sch : Nat) (input : String) (opts : PraptiOptions)
    (hm : HMap)
    (hrh : (opts.validate.bind (·.request)).bind (·.headers) = some sch)
    (hphase : praptiHeaderPhase cl (some sch) (headersToObject opts.headers) =
      .ok hm) :
    (praptiBuildRequest cl input (some opts)).map (fun r => r.headers) =
      (praptiBuildRequest cl input (some opts)).map (fun _ =>
        match (opts.validate.bind (·.request)).bind (·.body), opts.body with
        | none, some (.plain _) =>
          if ¬ hm.has "Content-Type" then
            hm.set "Content-Type" "application/json"
          else hm
        | _, _ => hm) := by
  unfold praptiBuildRequest
  simp only [Option.getD, hrh, hphase, exceptBindOk]
  cases hbs : (opts.validate.bind (·.request)).bind (·.body) with
  | none =>
    cases hob : opts.body with
    | none => rfl
    | some b =>
      cases b
      case plain v => rfl
      all_goals rfl
  | some bsch =>
    cases hob : opts.body with
    | none => rfl
    | some b =>
      cases b with
      | str t =>
        dsimp only
        cases hd : praptiDecodeStringBody cl (hm.get "content-type") t with
        | error e => simp [hd, exceptBindErr, exceptMapErr]
        | ok pv =>
          simp only [hd, exceptBindOk]
          cases hv : cl.parse bsch pv with
          | error e => simp [hv, exceptFmapErr, exceptMapErr]
          | ok vd => simp [hv, exceptFmapOk, exceptMapOk]
      | formData fd =>
        dsimp only
        cases hv : cl.parse bsch (JSBody.asJSVal (.formData fd)) with
        | error e => simp [hv, exceptBindErr, exceptMapErr]
        | ok vd =>
          simp only [pure_bind, hv, exceptBindOk]
          cases hr : objectToFormData vd .native with
          | error e => simp [hr, exceptBindErr, exceptFmapErr, exceptMapErr]
          | ok fdo => simp [hr, exceptBindOk, exceptFmapOk, exceptPure, exceptMapOk]
      | urlParams ps =>
        dsimp only
        cases hv : cl.parse bsch (JSBody.asJSVal (.urlParams ps)) with
        | error e => simp [hv, exceptBindErr, exceptMapErr]
        | ok vd =>
          simp only [pure_bind, hv, exceptBindOk]
          cases hr : objectToUrlSearchParams vd with
          | error e => simp [hr, exceptBindErr, exceptFmapErr, exceptMapErr]
          | ok pso => simp [hr, exceptBindOk, exceptFmapOk, exceptPure, exceptMapOk]
      | blob n =>
        dsimp only
        cases hv : cl.parse bsch (JSBody.asJSVal (.blob n)) with
        | error e => simp [hv, exceptBindErr, exceptFmapErr, exceptMapErr]
        | ok vd => simp [hv, exceptBindOk, exceptFmapOk, exceptMapOk]
      | arrayBuffer n =>
        dsimp only
        cases hv : cl.parse bsch (JSBody.asJSVal (.arrayBuffer n)) with
        | error e => simp [hv, exceptBindErr, exceptFmapErr, exceptMapErr]
        | ok vd => simp [hv, exceptBindOk, exceptFmapOk, exceptMapOk]
      | typedView n =>
        dsimp only
        cases hv : cl.parse bsch (JSBody.asJSVal (.typedView n)) with
        | error e => simp [hv, exceptBindErr, exceptFmapErr, exceptMapErr]
        | ok vd => simp [hv, exceptBindOk, exceptFmapOk, exceptMapOk]
      | stream n =>
        dsimp only
        cases hv : cl.parse bsch (JSBody.asJSVal (.stream n)) with
        | error e => simp [hv, exceptBindErr, exceptFmapErr, exceptMapErr]
        | ok vd => simp [hv, exceptBindOk, exceptFmapOk, exceptMapOk]
      | plain v =>
        dsimp only
        cases hv : cl.parse bsch (JSBody.asJSVal (.plain v)) with
        | error e => simp [hv, exceptBindErr, exceptFmapErr, exceptMapErr]
        | ok vd => simp [hv, exceptBindOk, exceptFmapOk, exceptMapOk]

/-- C2 (amended): with a request header schema, the header-validation
phase produces — in `preserve` mode — the original normalized headers
overwritten entry-by-entry by the schema's emissions (unknown names
retained, a nullish emission deleting the header), and — in `strict`
mode — only the schema's non-nullish emissions; the outgoing request
carries exactly this validated set on every name, except that when no
request body schema is configured and the body is a plain structured
object, the auto-encode step additionally fills in
`content-type: application/json` if the validated set lacks it. -/
theorem request_header_validation_modes
    (cl : PraptiClient) (sch : Nat) (input : String) (opts : PraptiOptions)
    (out : List (String × JSVal))
    (hrh : (opts.validate.bind (·.request)).bind (·.headers) = some sch)
    (hp : cl.parse sch (hmapToJS (headersToObject opts.headers)) =
      .ok (.obj out)) :
    (∀ k, (praptiHeaderPhase cl (some sch) (headersToObject opts.headers)).map
        (fun m => m.get k) =
      .ok (match lastHeaderAction out (lowerStr k) with
        | some v => if v.isNullish then none else some (jsToString v)
        | none =>
          if cl.headerValidationMode = .preserve then
            (headersToObject opts.headers).get k
          else none)) ∧
    (∀ hm, praptiHeaderPhase cl (some sch) (headersToObject opts.headers) =
        .ok hm →
      (∀ k, lowerStr k ≠ "content-type" →
        (praptiBuildRequest cl input (some opts)).map
            (fun r => r.headers.get k) =
          (praptiBuildRequest cl input (some opts)).map
            (fun _ => hm.get k)) ∧
      (praptiBuildRequest cl input (some opts)).map
          (fun r => r.headers.get "content-type") =
        (praptiBuildRequest cl input (some opts)).map (fun _ =>
          match (opts.validate.bind (·.request)).bind (·.body), opts.body,
              hm.get "content-type" with
          | none, some (.plain _), none => some "application/json"
          | _, _, ct => ct)) := by
  constructor
  · intro k
    unfold praptiHeaderPhase
    simp only [hp, exceptBindOk, JSVal.isTruthyObject, JSVal.entries,
      if_true, reduceIte, exceptPure, exceptMapOk]
    cases hmode : cl.headerValidationMode with
    | preserve =>
      rw [if_pos rfl, get_applyValidatedHeaders,
        setAll_nil_self _ (headersToObject_wf opts.headers)]
      cases lastHeaderAction out (lowerStr k) <;> rfl
    | strict =>
      rw [if_neg (by decide), get_applyValidatedHeaders]
      cases lastHeaderAction out (lowerStr k) <;> rfl
  · intro hm hphase
    have hB := build_headers_with_header_schema cl sch input opts hm hrh hphase
    constructor
    · intro k hk
      cases hbuild : praptiBuildRequest cl input (some opts) with
      | error e => rfl
      | ok r =>
        rw [hbuild] at hB
        simp only [exceptMapOk, Except.ok.injEq] at hB
        simp only [exceptMapOk, Except.ok.injEq]
        rw [hB]
        cases (opts.validate.bind (·.request)).bind (·.body) with
        | some bsch => rfl
        | none =>
          cases opts.body with
          | none => rfl
          | some b =>
            cases b
            case plain v =>
              by_cases hct : hm.has "Content-Type"
              · rw [if_neg (by simp [hct])]
              · rw [if_pos (by simp [hct]), HMap.get_set, if_neg]
                rw [show lowerStr "Content-Type" = "content-type" from by decide]
                exact hk
            all_goals rfl
    · cases hbuild : praptiBuildRequest cl input (some opts) with
      | error e => rfl
      | ok r =>
        rw [hbuild] at hB
        simp only [exceptMapOk, Except.ok.injEq] at hB
        simp only [exceptMapOk, Except.ok.injEq]
        rw [hB]
        cases (opts.validate.bind (·.request)).bind (·.body) with
        | some bsch => rfl
        | none =>
          cases opts.body with
          | none => rfl
          | some b =>
            cases b
            case plain v =>
              by_cases hct : hm.has "Content-Type"
              · rw [if_neg (by simp [hct])]
                rw [has_content_type_eq] at hct
                obtain ⟨c, hc⟩ := Option.isSome_iff_exists.mp hct
                rw [hc]
              · rw [if_pos (by simp [hct]), HMap.get_set,
                  if_pos (by decide)]
                rw [has_content_type_eq, Bool.not_eq_true] at hct
                cases hg : hm.get "content-type" with
                | none => rfl
                | some c => rw [hg] at hct; exact absurd hct (by simp)
            all_goals rfl

/-- C2 counterexample: in `strict` mode with the schema emitting only
`a` (and a nullish `x-null`), the outgoing request still carries
`content-type: application/json` — a name the schema never emitted and
the original headers never contained — because the no-body-schema
plain-object auto-encode step adds it after header validation. -/
theorem request_header_validation_modes_cex :
    (praptiBuildRequest strictClient "https://api.example.com"
        (some modesPlainOpts)).map
      (fun r => r.headers.get "content-type") =
      .ok (some "application/json") ∧
    lastHeaderAction [("a", .str "A1"), ("x-null", .null)] "content-type" =
      none ∧
    (headersToObject modesPlainOpts.headers).get "content-type" = none :=
  ⟨rfl, rfl, rfl⟩

/-- Witness for C2 (amended): original headers `a:1, b:2, x-null:n`,
schema emitting `a:A1` and a `null` for `x-null`: `preserve` keeps `b`
and rewrites `a`, deleting `x-null`; `strict` keeps only `a`; and on the
final request the validated `b` survives while the plain-object body adds
`content-type: application/json` to the validated set. -/
theorem request_header_validation_modes_witness :
    ((praptiHeaderPhase preserveClient (some 3)
        (headersToObject modesPlainOpts.headers)).map (fun m => m.get "b") =
      .ok (some "2") ∧
     (praptiHeaderPhase strictClient (some 3)
        (headersToObject modesPlainOpts.headers)).map (fun m => m.get "b") =
      .ok none) ∧
    ((praptiHeaderPhase preserveClient (some 3)
        (headersToObject modesPlainOpts.headers)).map (fun m => m.get "a") =
      .ok (some "A1") ∧
     (praptiHeaderPhase preserveClient (some 3)
        (headersToObject modesPlainOpts.headers)).map
        (fun m => m.get "x-null") = .ok none) ∧
    ((praptiBuildRequest preserveClient "https://api.example.com"
        (some modesPlainOpts)).map (fun r => r.headers.get "b") =
      (praptiBuildRequest preserveClient "https://api.example.com"
        (some modesPlainOpts)).map (fun _ => some "2") ∧
     (praptiBuildRequest preserveClient "https://api.example.com"
        (some modesPlainOpts)).map (fun r => r.headers.get "content-type") =
      (praptiBuildRequest preserveClient "https://api.example.com"
        (some modesPlainOpts)).map (fun _ => some "application/json")) := by
  have hP := request_header_validation_modes preserveClient 3
    "https://api.example.com" modesPlainOpts
    [("a", .str "A1"), ("x-null", .null)] rfl rfl
  have hS := request_header_validation_modes strictClient 3
    "https://api.example.com" modesPlainOpts
    [("a", .str "A1"), ("x-null", .null)] rfl rfl
  have h2 := hP.2 [("a", "A1"), ("b", "2")] rfl
  exact ⟨⟨hP.1 "b", hS.1 "b"⟩, ⟨hP.1 "a", hP.1 "x-null"⟩,
    ⟨h2.1 "b" (by decide), h2.2⟩⟩

/-- C4 (amended): when a request body schema is configured, a raw string
body whose effective content-type is a JSON media type and whose decode
fails makes `Prapti.fetch` reject with the descriptive
`Invalid JSON request body: …` error wrapping the parse failure, and no
transport request is issued. -/
theorem invalid_json_request_body_rejects (cl : PraptiClient)
    (input s msg : String) (opts : PraptiOptions) (sch : Nat) (hm : HMap)
    (hrb : (opts.validate.bind (·.request)).bind (·.body) = some sch)
    (hbody : opts.body = some (.str s))
    (hphase : praptiHeaderPhase cl
        ((opts.validate.bind (·.request)).bind (·.headers))
        (headersToObject opts.headers) = .ok hm)
    (hj : cl.isJsonCT (hm.get "content-type") = true)
    (hparse : cl.serializer.parse s = .error msg) :
    praptiBuildRequest cl input (some opts) =
      .error ("Invalid JSON request body: " ++ msg) ∧
    praptiIssuedRequests cl input (some opts) = [] := by
  have hb : praptiBuildRequest cl input (some opts) =
      .error ("Invalid JSON request body: " ++ msg) := by
    unfold praptiBuildRequest
    simp only [Option.getD, hrb, hbody, hphase, exceptBindOk]
    unfold praptiDecodeStringBody
    simp only [hj, if_true, hparse, exceptBindErr]
  refine ⟨hb, ?_⟩
  unfold praptiIssuedRequests
  rw [hb]

/-- C4 counterexample: without a request body schema, the same invalid
JSON string body under `content-type: application/json` is not decoded at
all — the call succeeds and the transport receives the body verbatim,
contradicting the claim that every such call fails before the network. -/
theorem invalid_json_request_body_rejects_cex :
    defaultIsJsonContentType (some "application/json") = true ∧
    sampleSerializer.parse "\x7binvalid-json\x7d" =
      .error "Unexpected token in JSON: \x7binvalid-json\x7d" ∧
    (praptiBuildRequest sampleClient "https://api.example.com"
        (some invalidJsonNoSchemaOpts)).map reqBodyString =
      .ok (some "\x7binvalid-json\x7d") ∧
    (praptiIssuedRequests sampleClient "https://api.example.com"
        (some invalidJsonNoSchemaOpts)).length = 1 :=
  ⟨by decide, rfl, rfl, rfl⟩

/-- Witness for C4 (amended) at the sample client and the invalid JSON
body `{invalid-json}` with a schema configured. -/
theorem invalid_json_request_body_rejects_witness :
    praptiBuildRequest sampleClient "https://api.example.com"
        (some invalidJsonWithSchemaOpts) =
      .error ("Invalid JSON request body: " ++
        "Unexpected token in JSON: \x7binvalid-json\x7d") ∧
    praptiIssuedRequests sampleClient "https://api.example.com"
        (some invalidJsonWithSchemaOpts) = [] :=
  invalid_json_request_body_rejects sampleClient "https://api.example.com"
    "\x7binvalid-json\x7d" "Unexpected token in JSON: \x7binvalid-json\x7d"
    invalidJsonWithSchemaOpts 7 [("content-type", "application/json")]
    rfl rfl rfl (by decide) rfl

/-- C5 (amended): a structured object body with no schemas is
auto-encoded and `content-type: application/json` is added only when the
caller supplied none (a caller content-type survives unchanged, other
headers untouched); and when both a request header schema and a request
body schema are configured the body-serialization step leaves the headers
exactly as the header-validation phase produced them. -/
theorem content_type_autoset_policy (cl : PraptiClient) (input : String)
    (opts : PraptiOptions) :
    (∀ v, (opts.validate.bind (·.request)).bind (·.body) = none →
      (opts.validate.bind (·.request)).bind (·.headers) = none →
      opts.body = some (.plain v) →
      (praptiBuildRequest cl input (some opts)).map
          (fun r => (r.headers.get "content-type", reqBodyString r)) =
        .ok (some (((headersToObject opts.headers).get "content-type").getD
              "application/json"),
            some (cl.serializer.stringify v)) ∧
      (∀ k, lowerStr k ≠ "content-type" →
        (praptiBuildRequest cl input (some opts)).map
            (fun r => r.headers.get k) =
          .ok ((headersToObject opts.headers).get k))) ∧
    (∀ bsch hsch hm, (opts.validate.bind (·.request)).bind (·.body) = some bsch →
      (opts.validate.bind (·.request)).bind (·.headers) = some hsch →
      praptiHeaderPhase cl (some hsch) (headersToObject opts.headers) = .ok hm →
      (praptiBuildRequest cl input (some opts)).map (fun r => r.headers) =
        (praptiBuildRequest cl input (some opts)).map (fun _ => hm)) := by
  constructor
  · intro v hrb hrh hbody
    have hwf := headersToObject_wf opts.headers
    constructor
    · unfold praptiBuildRequest
      simp only [Option.getD, hrb, hrh, hbody, praptiHeaderPhase_no_schema,
        exceptBindOk, setAll_nil_self _ hwf]
      rw [has_content_type_eq]
      cases hct : (headersToObject opts.headers).get "content-type" with
      | none =>
        rw [if_pos (by simp [hct])]
        simp only [exceptPure, exceptMapOk, reqBodyString, Option.getD]
        rw [HMap.get_set]
        simp [show lowerStr "content-type" = lowerStr "Content-Type" from by decide]
      | some ct =>
        rw [if_neg (by simp [hct])]
        simp [exceptPure, exceptMapOk, reqBodyString, hct]
    · intro k hk
      unfold praptiBuildRequest
      simp only [Option.getD, hrb, hrh, hbody, praptiHeaderPhase_no_schema,
        exceptBindOk, setAll_nil_self _ hwf]
      by_cases hct : ((headersToObject opts.headers).has "Content-Type") = true
      · rw [if_neg (by simp [hct])]
        simp [exceptPure, exceptMapOk]
      · rw [if_pos (by simp [Bool.not_eq_true] at hct ⊢; exact hct)]
        simp only [exceptPure, exceptMapOk]
        rw [HMap.get_set, if_neg]
        intro hc
        exact hk (hc.trans (by decide))
  · intro bsch hsch hm hrb hrh hphase
    unfold praptiBuildRequest
    simp only [Option.getD, hrb, hrh, hphase, exceptBindOk]
    cases hb : opts.body with
    | none => rfl
    | some b =>
      cases b with
      | str s =>
        dsimp only
        cases hd : praptiDecodeStringBody cl (hm.get "content-type") s with
        | error e => simp [hd, exceptBindErr, exceptMapErr]
        | ok pv =>
          simp only [hd, exceptBindOk]
          cases hv : cl.parse bsch pv with
          | error e => simp [hv, exceptFmapErr, exceptMapErr]
          | ok vd => simp [hv, exceptFmapOk, exceptMapOk]
      | formData fd =>
        dsimp only
        cases hv : cl.parse bsch (JSBody.asJSVal (.formData fd)) with
        | error e => simp [hv, exceptBindErr, exceptMapErr]
        | ok vd =>
          simp only [pure_bind, hv, exceptBindOk]
          cases hr : objectToFormData vd .native with
          | error e => simp [hr, exceptBindErr, exceptFmapErr, exceptMapErr]
          | ok out => simp [hr, exceptBindOk, exceptFmapOk, exceptPure, exceptMapOk]
      | urlParams ps =>
        dsimp only
        cases hv : cl.parse bsch (JSBody.asJSVal (.urlParams ps)) with
        | error e => simp [hv, exceptBindErr, exceptMapErr]
        | ok vd =>
          simp only [pure_bind, hv, exceptBindOk]
          cases hr : objectToUrlSearchParams vd with
          | error e => simp [hr, exceptBindErr, exceptFmapErr, exceptMapErr]
          | ok out => simp [hr, exceptBindOk, exceptFmapOk, exceptPure, exceptMapOk]
      | blob n =>
        dsimp only
        cases hv : cl.parse bsch (JSBody.asJSVal (.blob n)) with
        | error e => simp [hv, exceptBindErr, exceptFmapErr, exceptMapErr]
        | ok vd => simp [hv, exceptBindOk, exceptFmapOk, exceptMapOk]
      | arrayBuffer n =>
        dsimp only
        cases hv : cl.parse bsch (JSBody.asJSVal (.arrayBuffer n)) with
        | error e => simp [hv, exceptBindErr, exceptFmapErr, exceptMapErr]
        | ok vd => simp [hv, exceptBindOk, exceptFmapOk, exceptMapOk]
      | typedView n =>
        dsimp only
        cases hv : cl.parse bsch (JSBody.asJSVal (.typedView n)) with
        | error e => simp [hv, exceptBindErr, exceptFmapErr, exceptMapErr]
        | ok vd => simp [hv, exceptBindOk, exceptFmapOk, exceptMapOk]
      | stream n =>
        dsimp only
        cases hv : cl.parse bsch (JSBody.asJSVal (.stream n)) with
        | error e => simp [hv, exceptBindErr, exceptFmapErr, exceptMapErr]
        | ok vd => simp [hv, exceptBindOk, exceptFmapOk, exceptMapOk]
      | plain v =>
        dsimp only
        cases hv : cl.parse bsch (JSBody.asJSVal (.plain v)) with
        | error e => simp [hv, exceptBindErr, exceptFmapErr, exceptMapErr]
        | ok vd => simp [hv, exceptBindOk, exceptFmapOk, exceptMapOk]

/-- C5 counterexample: with a request header schema but no request body
schema, the auto-encode step of a plain-object body still sets
`content-type: application/json` even though the header-validation phase
produced no content-type — the body step is not disabled by the header
schema alone, contradicting "never sets content-type at all". -/
theorem content_type_autoset_policy_cex :
    (praptiBuildRequest fixedHeadersClient "https://api.example.com"
        (some headerSchemaPlainBodyOpts)).map
      (fun r => r.headers.get "content-type") = .ok (some "application/json") ∧
    (praptiHeaderPhase fixedHeadersClient (some 3)
        (headersToObject headerSchemaPlainBodyOpts.headers)).map
      (fun m => m.get "content-type") = .ok none :=
  ⟨rfl, rfl⟩

/-- Witness for C5 (amended): a caller `application/vnd.api+json`
survives the no-schema auto-encode, and with both schemas the final
headers are exactly the header-phase output. -/
theorem content_type_autoset_policy_witness :
    ((praptiBuildRequest sampleClient "https://api.example.com"
        (some vndContentTypeOpts)).map
        (fun r => (r.headers.get "content-type", reqBodyString r)) =
      .ok (some "application/vnd.api+json", some "\x7b\"foo\":\"bar\"\x7d")) ∧
    ((praptiBuildRequest fixedHeadersClient "https://api.example.com"
        (some bothSchemasOpts)).map (fun r => r.headers) =
      (praptiBuildRequest fixedHeadersClient "https://api.example.com"
        (some bothSchemasOpts)).map (fun _ => [("x-api", "k")])) := by
  constructor
  · exact ((content_type_autoset_policy sampleClient "https://api.example.com"
      vndContentTypeOpts).1 (.obj [("foo", .str "bar")]) rfl rfl rfl).1
  · exact (content_type_autoset_policy fixedHeadersClient "https://api.example.com"
      bothSchemasOpts).2 1 3 [("x-api", "k")] rfl rfl rfl

/-- C6 (amended): when a request body schema validates a raw-string body
and the validated result is itself a string, the result is re-encoded via
the serializer exactly when the effective content-type is a JSON media
type; otherwise — including when the content-type is unset — the string
is sent as-is. -/
theorem validated_string_reencode_policy (cl : PraptiClient)
    (input s t : String) (opts : PraptiOptions) (sch : Nat) (hm : HMap)
    (pv : JSVal)
    (hrb : (opts.validate.bind (·.request)).bind (·.body) = some sch)
    (hbody : opts.body = some (.str s))
    (hphase : praptiHeaderPhase cl
        ((opts.validate.bind (·.request)).bind (·.headers))
        (headersToObject opts.headers) = .ok hm)
    (hd : praptiDecodeStringBody cl (hm.get "content-type") s = .ok pv)
    (hv : cl.parse sch pv = .ok (.str t)) :
    (praptiBuildRequest cl input (some opts)).map reqBodyString =
      .ok (some (if cl.isJsonCT (hm.get "content-type") = true then
        cl.serializer.stringify (.str t) else t)) := by
  unfold praptiBuildRequest
  simp only [Option.getD, hrb, hbody, hphase, exceptBindOk]
  simp only [hd, exceptBindOk, hv, exceptFmapOk, exceptMapOk]
  by_cases hj : cl.isJsonCT (hm.get "content-type") = true
  · simp [hj, exceptPure, exceptMapOk, reqBodyString]
  · simp [hj, exceptPure, exceptMapOk, reqBodyString]

/-- C6 counterexample: with no content-type header at all, a raw string
body whose schema validates to the same string is sent as-is (`hi`), not
re-encoded to the serializer form (`"hi"`), contradicting the claim's
"JSON media type or unset → re-encode". -/
theorem validated_string_reencode_policy_cex :
    (praptiBuildRequest sampleClient "https://api.example.com"
        (some stringBodyNoCTOpts)).map reqBodyString = .ok (some "hi") ∧
    sampleStringify (.str "hi") = "\"hi\"" ∧
    ("hi" : String) ≠ "\"hi\"" :=
  ⟨rfl, rfl, by decide⟩

/-- Witness for C6 (amended): under `application/json` the validated
string `ok` is re-encoded to `"ok"`; under `text/plain` the validated
string is sent verbatim. -/
theorem validated_string_reencode_policy_witness :
    ((praptiBuildRequest sampleClient "https://api.example.com"
        (some jsonStringBodyOpts)).map reqBodyString = .ok (some "\"ok\"")) ∧
    ((praptiBuildRequest sampleClient "https://api.example.com"
        (some textPlainStringBodyOpts)).map reqBodyString =
      .ok (some "hello world")) := by
  constructor
  · exact validated_string_reencode_policy sampleClient "https://api.example.com"
      "\"ok\"" "ok" jsonStringBodyOpts 1 [("content-type", "application/json")]
      (.str "ok") rfl rfl rfl rfl rfl
  · exact validated_string_reencode_policy sampleClient "https://api.example.com"
      "hello world" "hello world" textPlainStringBodyOpts 1
      [("content-type", "text/plain")] (.str "hello world") rfl rfl rfl rfl rfl

/-! ## Body-helper lemmas -/

theorem recGetGo_setGo (m : List (String × JSVal)) (k k' : String) (v : JSVal) :
    recGetGo (recSetGo m k v) k' = if k' = k then some v else recGetGo m k' := by
  induction m with
  | nil =>
    by_cases h : k' = k
    · subst h; simp [recSetGo, recGetGo]
    · have h2 : ¬ k = k' := fun hc => h hc.symm
      simp [recSetGo, recGetGo, h, h2]
  | cons e rest ih =>
    by_cases he : e.1 = k
    · by_cases h : k' = k
      · subst h; simp [recSetGo, recGetGo, he]
      · have h2 : ¬ k = k' := fun hc => h hc.symm
        have h3 : ¬ e.1 = k' := fun hc => h2 (he ▸ hc)
        simp [recSetGo, recGetGo, he, h, h2, h3]
    · by_cases h : k' = e.1
      · have h4 : ¬ k' = k := fun hc => he (by rw [← h]; exact hc)
        have h5 : e.1 = k' := h.symm
        simp [recSetGo, recGetGo, he, h4, h5]
      · have h6 : ¬ e.1 = k' := fun hc => h hc.symm
        simp [recSetGo, recGetGo, he, h, h6, ih]

theorem mem_keys_recSetGo (m : List (String × JSVal)) (k : String) (v : JSVal)
    (a : String) :
    a ∈ (recSetGo m k v).map Prod.fst ↔ a = k ∨ a ∈ m.map Prod.fst := by
  induction m with
  | nil => simp [recSetGo]
  | cons e rest ih =>
    by_cases he : e.1 = k
    · simp [recSetGo, he]
    · simp [recSetGo, he, ih]
      tauto

theorem nodup_keys_recSetGo (m : List (String × JSVal)) (k : String) (v : JSVal)
    (hn : (m.map Prod.fst).Nodup) : ((recSetGo m k v).map Prod.fst).Nodup := by
  induction m with
  | nil => simp [recSetGo]
  | cons e rest ih =>
    simp only [List.map_cons, List.nodup_cons] at hn
    by_cases he : e.1 = k
    · simp only [recSetGo, he, if_pos, List.map_cons, List.nodup_cons]
      exact ⟨he ▸ hn.1, hn.2⟩
    · simp only [recSetGo, he, if_false, List.map_cons, List.nodup_cons]
      refine ⟨?_, ih hn.2⟩
      intro hmem
      rcases (mem_keys_recSetGo rest k v e.1).mp hmem with h | h
      · exact he h
      · exact hn.1 h

theorem nodup_keys_fdStep (m : List (String × JSVal)) (k : String) (v : JSVal)
    (hn : (m.map Prod.fst).Nodup) : ((fdStep m k v).map Prod.fst).Nodup := by
  unfold fdStep
  cases recGetGo m k with
  | none => exact nodup_keys_recSetGo m k v hn
  | some old =>
    by_cases hu : old.isUndef = true
    · simp only [hu, if_pos]
      exact nodup_keys_recSetGo m k v hn
    · simp only [hu, if_false]
      cases old <;> exact nodup_keys_recSetGo m k _ hn

theorem nodup_keys_formDataToObject (fd : List (String × JSVal)) :
    ((formDataToObject fd).map Prod.fst).Nodup := by
  suffices h : ∀ acc : List (String × JSVal), (acc.map Prod.fst).Nodup →
      ((fd.foldl (fun result e => fdStep result e.1 e.2) acc).map Prod.fst).Nodup by
    exact h [] (by simp)
  induction fd with
  | nil => exact fun acc h => h
  | cons e rest ih =>
    intro acc hacc
    exact ih _ (nodup_keys_fdStep acc e.1 e.2 hacc)

theorem groupVals_of_two_le (l : List JSVal) (h : 2 ≤ l.length) :
    groupVals l = some (.arr l) := by
  match l with
  | [] => simp at h
  | [v] => simp at h
  | a :: b :: t => rfl

theorem groupVals_eq_none (l : List JSVal) (h : groupVals l = none) : l = [] := by
  match l with
  | [] => rfl
  | [v] => simp [groupVals] at h
  | a :: b :: t => simp [groupVals] at h

theorem appendFormDataValue_native (acc : List (String × JSVal)) (k : String)
    (v : JSVal) :
    appendFormDataValue acc k v .native = .ok (acc ++ [(k, fdCoerce v)]) := by
  cases v <;> rfl

theorem objectToFormData_native (obj : List (String × JSVal)) :
    objectToFormData (.obj obj) .native = .ok (rebuiltEntries obj) := by
  show (jsObjectEntries (.obj obj) >>= _) = _
  rw [show jsObjectEntries (.obj obj) = .ok obj from rfl, exceptBindOk]
  suffices h : ∀ acc : List (String × JSVal),
      (obj.foldlM
        (fun formData e =>
          match e.2 with
          | .arr items =>
            items.foldlM (fun fd item => appendFormDataValue fd e.1 item .native)
              formData
          | v => appendFormDataValue formData e.1 v .native)
        acc) = .ok (acc ++ rebuiltEntries obj) by
    simpa using h []
  have inner : ∀ (k : String) (items : List JSVal) (acc : List (String × JSVal)),
      items.foldlM (fun fd item => appendFormDataValue fd k item .native) acc =
        .ok (acc ++ items.map fun it => (k, fdCoerce it)) := by
    intro k items
    induction items with
    | nil => intro acc; simp [exceptPure]
    | cons it rest ih =>
      intro acc
      rw [List.foldlM_cons, appendFormDataValue_native, exceptBindOk, ih]
      simp
  induction obj with
  | nil => intro acc; simp [rebuiltEntries, exceptPure]
  | cons e rest ih =>
    intro acc
    rw [List.foldlM_cons]
    have hstep :
        (match e.2 with
          | .arr items =>
            items.foldlM (fun fd item => appendFormDataValue fd e.1 item .native)
              acc
          | v => appendFormDataValue acc e.1 v .native) =
        .ok (acc ++ (match e.2 with
          | .arr items => items.map fun it => (e.1, fdCoerce it)
          | v => [(e.1, fdCoerce v)])) := by
      cases e.2 <;>
        first
          | exact inner _ _ _
          | exact appendFormDataValue_native _ _ _
    rw [hstep, exceptBindOk, ih]
    simp [rebuiltEntries]

theorem objectToUrlSearchParams_entries (obj : List (String × JSVal)) :
    objectToUrlSearchParams (.obj obj) = .ok (spRebuiltEntries obj) := by
  show (jsObjectEntries (.obj obj) >>= _) = _
  rw [show jsObjectEntries (.obj obj) = .ok obj from rfl, exceptBindOk]
  suffices h : ∀ acc : List (String × String),
      (obj.foldl
        (fun params e =>
          match e.2 with
          | .arr items => params ++ items.map fun item => (e.1, jsToString item)
          | v => params ++ [(e.1, jsToString v)])
        acc) = acc ++ spRebuiltEntries obj by
    rw [h []]
    rfl
  induction obj with
  | nil => intro acc; simp [spRebuiltEntries]
  | cons e rest ih =>
    intro acc
    rw [List.foldl_cons]
    rw [show (match e.2 with
      | JSVal.arr items => acc ++ items.map fun item => (e.1, jsToString item)
      | v => acc ++ [(e.1, jsToString v)]) =
        acc ++ (match e.2 with
      | JSVal.arr items => items.map fun item => (e.1, jsToString item)
      | v => [(e.1, jsToString v)]) from by cases e.2 <;> simp]
    rw [ih]
    simp [spRebuiltEntries]

theorem fdValues_append_single (l : List (String × JSVal)) (k k' : String)
    (v : JSVal) :
    fdValues (l ++ [(k', v)]) k =
      fdValues l k ++ (if k' = k then [v] else []) := by
  unfold fdValues
  rw [List.filter_append, List.map_append]
  by_cases h : k' = k
  · simp [h]
  · simp [h]

theorem fdValues_wire (fd : List (String × JSVal))
    (hw : ∀ e ∈ fd, isWireVal e.2 = true) (k : String) :
    ∀ x ∈ fdValues fd k, isWireVal x = true := by
  intro x hx
  unfold fdValues at hx
  obtain ⟨e, he, hex⟩ := List.mem_map.mp hx
  exact hex ▸ hw e (List.mem_of_mem_filter he)

theorem recGetGo_fdStep_ne (m : List (String × JSVal)) (k k' : String)
    (v : JSVal) (h : ¬ k = k') :
    recGetGo (fdStep m k' v) k = recGetGo m k := by
  unfold fdStep
  cases recGetGo m k' with
  | none => rw [recGetGo_setGo, if_neg h]
  | some old =>
    cases old <;>
      simp only [JSVal.isUndef] <;>
      first
        | rw [if_pos trivial, recGetGo_setGo, if_neg h]
        | rw [if_neg Bool.false_ne_true, recGetGo_setGo, if_neg h]

theorem flatten_get (fd : List (String × JSVal))
    (hw : ∀ e ∈ fd, isWireVal e.2 = true) (k : String) :
    recGetGo (formDataToObject fd) k = groupVals (fdValues fd k) := by
  induction fd using List.reverseRecOn with
  | nil => rfl
  | append_singleton l e ih =>
    have hwl : ∀ x ∈ l, isWireVal x.2 = true :=
      fun x hx => hw x (List.mem_append_left _ hx)
    have hwe : isWireVal e.2 = true :=
      hw e (List.mem_append_right _ (List.mem_singleton_self e))
    have hflat : formDataToObject (l ++ [e]) =
        fdStep (formDataToObject l) e.1 e.2 := by
      unfold formDataToObject
      rw [List.foldl_append]
      rfl
    rw [hflat]
    have hvals : fdValues (l ++ [e]) k =
        fdValues l k ++ (if e.1 = k then [e.2] else []) := by
      have := fdValues_append_single l k e.1 e.2
      simpa using this
    rw [hvals]
    by_cases h : e.1 = k
    · subst h
      have hwk := fdValues_wire l hwl e.1
      rw [if_pos rfl]
      unfold fdStep
      rw [ih hwl]
      cases hv : fdValues l e.1 with
      | nil =>
        dsimp only [groupVals]
        rw [recGetGo_setGo, if_pos rfl]
        rfl
      | cons x t =>
        have hx : isWireVal x = true := hwk x (hv ▸ List.mem_cons_self x t)
        cases t with
        | nil =>
          dsimp only [groupVals]
          cases x <;> simp only [isWireVal] at hx <;>
            first
              | exact absurd hx Bool.false_ne_true
              | (rw [if_neg (by simp [JSVal.isUndef]), recGetGo_setGo, if_pos rfl]
                 rfl)
        | cons y u =>
          dsimp only [groupVals]
          rw [if_neg (by simp [JSVal.isUndef]), recGetGo_setGo, if_pos rfl]
          rfl
    · rw [recGetGo_fdStep_ne _ _ _ _ (fun hc => h hc.symm), ih hwl]
      simp [h]

theorem rebuiltEntries_cons (e : String × JSVal) (rest : List (String × JSVal)) :
    rebuiltEntries (e :: rest) =
      (match e.2 with
        | JSVal.arr items => items.map fun it => (e.1, fdCoerce it)
        | v => [(e.1, fdCoerce v)]) ++ rebuiltEntries rest := by
  simp [rebuiltEntries]

theorem rebuiltBlock_filter_ne (e : String × JSVal) (k : String) (h : ¬ e.1 = k) :
    ((match e.2 with
      | JSVal.arr items => items.map fun it => (e.1, fdCoerce it)
      | v => [(e.1, fdCoerce v)]).filter fun x : String × JSVal => x.1 == k) = [] := by
  rw [List.filter_eq_nil_iff]
  intro a ha
  cases hv : e.2 <;> rw [hv] at ha <;>
    first
      | (obtain ⟨it, _, hit⟩ := List.mem_map.mp ha
         simp [← hit, h])
      | (simp only [List.mem_singleton] at ha
         simp [ha, h])

theorem rebuiltBlock_filter_self (e : String × JSVal) :
    ((match e.2 with
      | JSVal.arr items => items.map fun it => (e.1, fdCoerce it)
      | v => [(e.1, fdCoerce v)]).filter fun x : String × JSVal => x.1 == e.1) =
      (match e.2 with
        | JSVal.arr items => items.map fun it => (e.1, fdCoerce it)
        | v => [(e.1, fdCoerce v)]) := by
  rw [List.filter_eq_self]
  intro a ha
  cases hv : e.2 <;> rw [hv] at ha <;>
    first
      | (obtain ⟨it, _, hit⟩ := List.mem_map.mp ha
         simp [← hit])
      | (simp only [List.mem_singleton] at ha
         simp [ha])

theorem fdValues_rebuilt_notmem (obj : List (String × JSVal)) (k : String)
    (h : ¬ k ∈ obj.map Prod.fst) : fdValues (rebuiltEntries obj) k = [] := by
  induction obj with
  | nil => rfl
  | cons e rest ih =>
    simp only [List.map_cons, List.mem_cons, not_or] at h
    rw [rebuiltEntries_cons]
    unfold fdValues
    rw [List.filter_append, List.map_append]
    rw [rebuiltBlock_filter_ne e k (fun hc => h.1 hc.symm)]
    have := ih h.2
    unfold fdValues at this
    simp [this]

theorem fdValues_rebuilt (obj : List (String × JSVal))
    (hnd : (obj.map Prod.fst).Nodup) (k : String) :
    fdValues (rebuiltEntries obj) k =
      match recGetGo obj k with
      | none => []
      | some (.arr items) => items.map fdCoerce
      | some v => [fdCoerce v] := by
  induction obj with
  | nil => rfl
  | cons e rest ih =>
    simp only [List.map_cons, List.nodup_cons] at hnd
    rw [rebuiltEntries_cons]
    unfold fdValues
    rw [List.filter_append, List.map_append]
    by_cases h : e.1 = k
    · subst h
      rw [rebuiltBlock_filter_self e]
      have hrest : fdValues (rebuiltEntries rest) e.1 = [] :=
        fdValues_rebuilt_notmem rest e.1 hnd.1
      unfold fdValues at hrest
      rw [hrest]
      show _ ++ [] = match recGetGo (e :: rest) e.1 with
        | none => []
        | some (.arr items) => items.map fdCoerce
        | some v => [fdCoerce v]
      rw [show recGetGo (e :: rest) e.1 = some e.2 from by
        simp only [recGetGo]; rw [if_pos trivial]]
      cases e.2 <;> simp [List.map_map]
    · rw [rebuiltBlock_filter_ne e k h]
      have := ih hnd.2
      unfold fdValues at this
      rw [show recGetGo (e :: rest) k = recGetGo rest k from by
        simp only [recGetGo]; rw [if_neg h]]
      simp [this]

theorem fdCoerce_wire (v : JSVal) (h : isWireVal v = true) : fdCoerce v = v := by
  cases v <;> simp_all [isWireVal, fdCoerce, jsToString]

theorem groupVals_match_map (vals : List JSVal)
    (hw : ∀ x ∈ vals, isWireVal x = true) :
    (match groupVals vals with
      | none => ([] : List JSVal)
      | some (.arr items) => items.map fdCoerce
      | some v => [fdCoerce v]) = vals := by
  match vals with
  | [] => rfl
  | [x] =>
    have hx : isWireVal x = true := hw x (List.mem_singleton_self x)
    cases x <;> simp_all [groupVals, isWireVal, fdCoerce, jsToString]
  | x :: y :: t =>
    show ((x :: y :: t).map fdCoerce) = x :: y :: t
    have h := List.map_congr_left (l := x :: y :: t) (f := fdCoerce) (g := id)
      (fun a ha => by simp [fdCoerce_wire a (hw a ha)])
    simpa using h

theorem fd_roundtrip_values (fd : List (String × JSVal))
    (hw : ∀ e ∈ fd, isWireVal e.2 = true) (k : String) :
    (objectToFormData (.obj (formDataToObject fd)) .native).map
      (fun out => fdValues out k) = .ok (fdValues fd k) := by
  rw [objectToFormData_native, exceptMapOk,
    fdValues_rebuilt (formDataToObject fd) (nodup_keys_formDataToObject fd) k,
    flatten_get fd hw k]
  exact congrArg Except.ok (groupVals_match_map (fdValues fd k)
    (fdValues_wire fd hw k))

theorem urlSearchParamsToObject_eq (ps : List (String × String)) :
    urlSearchParamsToObject ps =
      formDataToObject (ps.map fun e => (e.1, JSVal.str e.2)) := by
  unfold urlSearchParamsToObject formDataToObject
  rw [List.foldl_map]

theorem fdValues_map_str (ps : List (String × String)) (k : String) :
    fdValues (ps.map fun e => (e.1, JSVal.str e.2)) k =
      (spValues ps k).map JSVal.str := by
  induction ps with
  | nil => rfl
  | cons e rest ih =>
    unfold fdValues spValues at *
    by_cases h : e.1 = k
    · simp [List.filter_cons, h, ih]
    · simp [List.filter_cons, h, ih]

theorem jsToString_fdCoerce (v : JSVal) : jsToString (fdCoerce v) = jsToString v := by
  cases v <;> rfl

theorem spRebuiltEntries_cons (e : String × JSVal) (rest : List (String × JSVal)) :
    spRebuiltEntries (e :: rest) =
      (match e.2 with
        | JSVal.arr items => items.map fun it => (e.1, jsToString it)
        | v => [(e.1, jsToString v)]) ++ spRebuiltEntries rest := by
  simp [spRebuiltEntries]

theorem spValues_map_values (l : List (String × JSVal)) (k : String)
    (f : JSVal → String) :
    spValues (l.map fun e => (e.1, f e.2)) k = (fdValues l k).map f := by
  induction l with
  | nil => rfl
  | cons e rest ih =>
    unfold spValues fdValues at *
    by_cases h : e.1 = k
    · simp [List.filter_cons, h, ih]
    · simp [List.filter_cons, h, ih]

theorem spRebuiltEntries_eq_map (obj : List (String × JSVal)) :
    spRebuiltEntries obj =
      (rebuiltEntries obj).map fun e => (e.1, jsToString e.2) := by
  induction obj with
  | nil => rfl
  | cons e rest ih =>
    rw [spRebuiltEntries_cons, rebuiltEntries_cons, List.map_append, ih]
    congr 1
    cases e.2 <;> simp [List.map_map, jsToString_fdCoerce, Function.comp]

theorem groupVals_match_map_str (vals : List String) :
    ((match groupVals (vals.map JSVal.str) with
      | none => ([] : List JSVal)
      | some (.arr items) => items.map fdCoerce
      | some v => [fdCoerce v]).map jsToString) = vals := by
  match vals with
  | [] => rfl
  | [s] => rfl
  | a :: b :: t =>
    show ((((a :: b :: t).map JSVal.str).map fdCoerce).map jsToString) = a :: b :: t
    simp only [List.map_map]
    have h := List.map_congr_left (l := a :: b :: t)
      (f := jsToString ∘ fdCoerce ∘ JSVal.str) (g := id)
      (fun x _ => by simp [Function.comp, fdCoerce, jsToString])
    simpa using h

theorem sp_wires (ps : List (String × String)) :
    ∀ e ∈ ps.map fun e => (e.1, JSVal.str e.2), isWireVal e.2 = true := by
  intro e he
  obtain ⟨x, _, hx⟩ := List.mem_map.mp he
  rw [← hx]
  rfl

/-- C3: flattening a form-data or url-search-params body maps a key
occurring once to its scalar value and a repeated key to the ordered
array of its values in wire order, and rebuilding the flattened record
(as a schema passing it through unchanged would return it) restores, for
every key, the same number of entries with the same values in the same
order. -/
theorem multi_value_flatten_roundtrip (fd : List (String × JSVal))
    (ps : List (String × String))
    (hw : ∀ e ∈ fd, isWireVal e.2 = true) (k : String) :
    recGetGo (formDataToObject fd) k = groupVals (fdValues fd k) ∧
    (objectToFormData (.obj (formDataToObject fd)) .native).map
      (fun out => fdValues out k) = .ok (fdValues fd k) ∧
    recGetGo (urlSearchParamsToObject ps) k =
      groupVals ((spValues ps k).map JSVal.str) ∧
    (objectToUrlSearchParams (.obj (urlSearchParamsToObject ps))).map
      (fun out => spValues out k) = .ok (spValues ps k) := by
  refine ⟨flatten_get fd hw k, fd_roundtrip_values fd hw k, ?_, ?_⟩
  · rw [urlSearchParamsToObject_eq, flatten_get _ (sp_wires ps) k,
      fdValues_map_str]
  · rw [urlSearchParamsToObject_eq, objectToUrlSearchParams_entries,
      exceptMapOk, spRebuiltEntries_eq_map, spValues_map_values,
      fdValues_rebuilt _ (nodup_keys_formDataToObject _) k,
      flatten_get _ (sp_wires ps) k, fdValues_map_str]
    exact congrArg Except.ok (groupVals_match_map_str (spValues ps k))

/-- Witness for C3: `tags=a, tags=b, id=7, tags=c` flattens to the array
`[a,b,c]` under `tags` and the scalar `7` under `id`, and rebuilds to the
same three `tags` entries in the same order (likewise for query
params). -/
theorem multi_value_flatten_roundtrip_witness :
    recGetGo (formDataToObject
        [("tags", .str "a"), ("tags", .str "b"), ("id", .str "7"),
          ("tags", .str "c")]) "tags" =
      some (.arr [.str "a", .str "b", .str "c"]) ∧
    (objectToFormData (.obj (formDataToObject
        [("tags", .str "a"), ("tags", .str "b"), ("id", .str "7"),
          ("tags", .str "c")])) .native).map
      (fun out => fdValues out "tags") =
      .ok [.str "a", .str "b", .str "c"] ∧
    (objectToUrlSearchParams (.obj (urlSearchParamsToObject
        [("tags", "a"), ("tags", "b"), ("id", "7"), ("tags", "c")]))).map
      (fun out => spValues out "tags") = .ok ["a", "b", "c"] := by
  have h := multi_value_flatten_roundtrip
    [("tags", .str "a"), ("tags", .str "b"), ("id", .str "7"), ("tags", .str "c")]
    [("tags", "a"), ("tags", "b"), ("id", "7"), ("tags", "c")]
    (by intro e he; fin_cases he <;> rfl) "tags"
  exact ⟨h.1, h.2.1, h.2.2.2⟩

/-! ## Response decorator lemmas -/

theorem accessTimes_cached (vr : ValidatedResponse) (sch : Nat) (n : Nat)
    (hs : vr.responseHeadersSchema = some sch)
    (hc : vr.validatedHeadersCache.isUndef = false) :
    accessValidatedHeadersTimes n vr = .ok (vr, 0) := by
  induction n with
  | zero => rfl
  | succ m ih =>
    unfold accessValidatedHeadersTimes
    unfold ValidatedResponse.validatedHeadersAccess
    rw [hs]
    dsimp only
    rw [if_neg (by simp [hc])]
    simp [exceptBindOk, ih, exceptPure]

/-- C8 (amended): on a `ValidatedResponse` constructed with a response
headers schema whose validated result is not the JS value `undefined`,
the adapter's `parse` is invoked exactly once, at construction, and no
access of `validatedHeaders` — however often repeated — invokes it
again. -/
theorem validatedHeaders_parse_once (resp : NativeResponse)
    (adapter : Nat → JSVal → Except String JSVal) (rs : Option Nat)
    (sch : Nat) (serializer : SerializationAdapter) (v : JSVal) (n : Nat)
    (hv : adapter sch (hmapToJS (responseRawHeaders resp.headers)) = .ok v)
    (hu : v.isUndef = false) :
    ((ValidatedResponse.mk' resp adapter rs (some sch) serializer).map
      (·.parseCalls)) = .ok 1 ∧
    ((ValidatedResponse.mk' resp adapter rs (some sch) serializer).bind
      (fun b => (accessValidatedHeadersTimes n b.vr).map (·.2))) = .ok 0 := by
  have hmk : ∃ inner : NativeResponse, inner.headers = resp.headers ∧
      ValidatedResponse.mk' resp adapter rs (some sch) serializer =
        .ok ⟨{ inner := inner, adapter := adapter, serializer := serializer,
               responseSchema := rs, responseHeadersSchema := some sch,
               validatedHeadersCache := v },
             resp, 1⟩ := by
    unfold ValidatedResponse.mk'
    cases hb : resp.bodyUsed with
    | true =>
      refine ⟨resp, rfl, ?_⟩
      rw [if_pos (by simp [hb])]
      simp only [pure_bind]
      dsimp only [ValidatedResponse.rawHeaders]
      simp [hv, exceptBindOk, exceptPure]
    | false =>
      refine ⟨{ resp with bodyUsed := false }, rfl, ?_⟩
      rw [if_neg (by simp [hb])]
      unfold NativeResponse.clone
      rw [if_neg (by simp [hb])]
      simp only [exceptBindOk, pure_bind]
      dsimp only [ValidatedResponse.rawHeaders]
      simp [hv, exceptBindOk, exceptPure]
  obtain ⟨inner, hinner, hmk⟩ := hmk
  rw [hmk]
  refine ⟨rfl, ?_⟩
  show (accessValidatedHeadersTimes n
      { inner := inner, adapter := adapter, serializer := serializer,
        responseSchema := rs, responseHeadersSchema := some sch,
        validatedHeadersCache := v }).map (·.2) = .ok 0
  rw [accessTimes_cached _ sch n rfl hu]
  rfl

/-- C8 counterexample: an adapter whose validated result is `undefined`
defeats the cache's `undefined` sentinel — the constructor invokes it
once and every access of `validatedHeaders` invokes it again (two
accesses add two invocations), so parse is not invoked exactly once. -/
theorem validatedHeaders_parse_once_cex :
    ((ValidatedResponse.mk' sampleResponse undefAdapter none (some 5)
      sampleSerializer).map (·.parseCalls)) = .ok 1 ∧
    ((ValidatedResponse.mk' sampleResponse undefAdapter none (some 5)
      sampleSerializer).bind
      (fun b => (accessValidatedHeadersTimes 2 b.vr).map (·.2))) = .ok 2 ∧
    (1 + 2 : Nat) ≠ 1 :=
  ⟨rfl, rfl, by decide⟩

/-- Witness for C8 (amended) at the identity adapter (which validates the
header record to itself, never `undefined`), with two accesses. -/
theorem validatedHeaders_parse_once_witness :
    ((ValidatedResponse.mk' sampleResponse idAdapter none (some 5)
      sampleSerializer).map (·.parseCalls)) = .ok 1 ∧
    ((ValidatedResponse.mk' sampleResponse idAdapter none (some 5)
      sampleSerializer).bind
      (fun b => (accessValidatedHeadersTimes 2 b.vr).map (·.2))) = .ok 0 :=
  validatedHeaders_parse_once sampleResponse idAdapter none 5 sampleSerializer
    (.obj [("x-custom", .str "value")]) 2 rfl rfl

/-- C9 (amended): on one decorator instance a second body read after a
consuming first read fails with the body-already-used `TypeError`; and
`clone()` — the inherited native `Response.clone`, there being no
override — leaves the decorator state on the original and returns a
plain teed `Response` (headers and body only, not a `ValidatedResponse`),
with the two body-consumed states decoupled: reading the original and
the clone independently, in either order, succeeds and yields the same
body text from both. -/
theorem body_single_read_and_clone (vr : ValidatedResponse)
    (h : vr.inner.bodyUsed = false) :
    ((vr.text).bind fun p => p.2.json) =
      .error "TypeError: Body already used" ∧
    ((vr.clone).bind fun p =>
        (p.1.text).bind fun q => (p.2.text).map fun r => (q.1, r.1)) =
      .ok (vr.inner.bodyContent, vr.inner.bodyContent) ∧
    ((vr.clone).bind fun p =>
        (p.2.text).bind fun r => (p.1.text).map fun q => (q.1, r.1)) =
      .ok (vr.inner.bodyContent, vr.inner.bodyContent) ∧
    (vr.clone).map (fun p => p.2) =
      .ok { headers := vr.inner.headers, bodyContent := vr.inner.bodyContent,
            bodyUsed := false } ∧
    (vr.clone).map (fun p => p.1.validatedHeadersCache) =
      .ok vr.validatedHeadersCache := by
  obtain ⟨⟨hs, bc, bu⟩, ad, ser, rs, rhs, ch⟩ := vr
  cases bu
  · refine ⟨?_, ?_, ?_, ?_, ?_⟩ <;>
      simp [ValidatedResponse.text, ValidatedResponse.json,
        ValidatedResponse.clone, NativeResponse.text, NativeResponse.clone,
        exceptBindOk, exceptBindOkE, exceptBindErr, exceptBindErrE,
        exceptMapOk, exceptMapErr, exceptPure, pure_bind]
  · exact Bool.noConfusion h

/-- C9 counterexample: the clone is not "a fully independent decorator" —
it is a plain `Response` without the decorator's cache or validating
`json()`: with a transforming response body schema the original's
`json()` yields the validated value while the clone's native `json()`
yields the raw parse, so reading each copy does not give the same data. -/
theorem body_single_read_and_clone_cex :
    ((schemaVR.clone).bind fun p =>
      (p.1.json).bind fun q =>
        (NativeResponse.json sampleParse p.2).map fun r =>
          (jsToString q.1, jsToString r.1)) =
      .ok ("validated", "ok") := rfl

/-- Witness for C9 (amended) at a concrete unconsumed decorator. -/
theorem body_single_read_and_clone_witness :
    ((sampleVR.text).bind fun p => p.2.json) =
      .error "TypeError: Body already used" ∧
    ((sampleVR.clone).bind fun p =>
        (p.1.text).bind fun q => (p.2.text).map fun r => (q.1, r.1)) =
      .ok ("\"ok\"", "\"ok\"") := by
  have h := body_single_read_and_clone sampleVR rfl
  exact ⟨h.1, h.2.1⟩

/-- C10: the `ValidatedResponse` constructor never consumes the
caller-supplied response: the original always comes back untouched; when
its body was not yet consumed the decorator reads from `response.clone()`,
so the original stays readable and the decorator carries the same body
unconsumed; only an already-consumed response backs the decorator
directly. -/
theorem construction_leaves_original_readable (response : NativeResponse)
    (adapter : Nat → JSVal → Except String JSVal)
    (rs rhsch : Option Nat) (ser : SerializationAdapter) (b : VRBuild)
    (hb : ValidatedResponse.mk' response adapter rs rhsch ser = .ok b) :
    b.original = response ∧
    (response.bodyUsed = false →
      (b.original.text).map (·.1) = .ok response.bodyContent ∧
      b.vr.inner.bodyContent = response.bodyContent ∧
      b.vr.inner.bodyUsed = false) ∧
    (response.bodyUsed = true → b.vr.inner = response) := by
  obtain ⟨hs, bc, bu⟩ := response
  cases rhsch <;> cases bu <;>
    simp only [ValidatedResponse.mk', NativeResponse.clone,
      ValidatedResponse.rawHeaders, exceptBindOk, exceptBindOkE,
      exceptBindErr, exceptBindErrE, exceptPure, pure_bind,
      if_neg Bool.false_ne_true, if_pos rfl, if_true, if_false] at hb
  all_goals
    first
    | (simp only [exceptPure, if_true, if_false, Except.ok.injEq] at hb
       subst hb
       simp [NativeResponse.text, exceptMapOk])
    | (rename_i sch
       cases hv : adapter sch (hmapToJS (responseRawHeaders hs)) with
       | error e =>
         rw [hv] at hb
         simp [exceptBindErr, exceptBindErrE] at hb
       | ok v =>
         rw [hv] at hb
         simp only [exceptBindOk, exceptBindOkE, exceptPure, pure_bind,
           if_true, if_false, Except.ok.injEq] at hb
         subst hb
         simp [NativeResponse.text, exceptMapOk])

/-- Witness for C10: constructing over the unconsumed `sampleResponse`
returns the original unchanged and still readable. -/
theorem construction_leaves_original_readable_witness :
    (ValidatedResponse.mk' sampleResponse idAdapter none none
      sampleSerializer = .ok ⟨sampleVR, sampleResponse, 0⟩) ∧
    sampleResponse.bodyUsed = false ∧
    (((⟨sampleVR, sampleResponse, 0⟩ : VRBuild).original.text).map (·.1) =
      .ok "\"ok\"") :=
  ⟨rfl, rfl,
    ((construction_leaves_original_readable sampleResponse idAdapter none
      none sampleSerializer ⟨sampleVR, sampleResponse, 0⟩ rfl).2.1 rfl).1⟩
